import Mathlib

/-!
Verification of the ScaleHLS design-space-exploration optimizer and HLS C++
emitter against its natural-language specification.

The definitions below are shallow embeddings of the C++ sources:
  - `MultipleLevelDSE.h` (band-state predicates, tiling driver interface),
  - `EmitHLSCpp.cpp` (value-name table, constant rendering, loop / alloc /
    block emission),
  - `ConvertToHLSCpp.cpp` (the annotator pass),
  - `Dialect/HLSCpp/Visitor.h` and `Dialect/HLSKernel/Visitor.h`
    (the dispatch catalogues).
Machine integers that cannot overflow in the modelled ranges (sizes, trip
counts, attribute values) are modelled as `Nat`/`Int`.  The file is laid out
as definitions first, then supporting lemmas, then the claim theorems.
-/

namespace ScaleHLS

/-! ### Decimal rendering

`std::to_string` on an unsigned size / `int64_t` produces the decimal
representation.  We embed it as a fuel-based structurally recursive decimal
renderer (so that it reduces by `decide`); its injectivity is what the
name-table uniqueness argument needs. -/

/-- Little-endian decimal digits, fuelled so the recursion is structural. -/
def decDigitsAux : Nat → Nat → List Nat
  | 0, _ => []
  | fuel + 1, n => if n = 0 then [] else n % 10 :: decDigitsAux fuel (n / 10)

/-- Little-endian decimal digits of `n` (empty for `n = 0`). -/
def decDigits (n : Nat) : List Nat :=
  decDigitsAux n n

/-- Value of a little-endian decimal digit list. -/
def decVal : List Nat → Nat
  | [] => 0
  | d :: rest => d + 10 * decVal rest

/-- Decimal character list of `n`, most significant digit first. -/
def decimalChars (n : Nat) : List Char :=
  if n = 0 then ['0'] else ((decDigits n).map Nat.digitChar).reverse

/-- Decimal string representation of a natural number (`std::to_string`). -/
def decimalString (n : Nat) : String :=
  String.mk (decimalChars n)

/-- Decimal string representation of a signed integer (`std::to_string` on
`int64_t`). -/
def intDecimalString (z : Int) : String :=
  if z < 0 then "-" ++ decimalString z.natAbs else decimalString z.natAbs

/-! ### Band-state predicates (`MultipleLevelDSE.h`)

`HLSCppOptimizer` classifies every loop of a band as HOT, COLD or FROZEN and
gates the search on three predicates over the band-state vector. -/

/-- Per-loop classification used by the DSE optimizer (`HLSCppOptimizer::LoopState`). -/
inductive LoopState
  | HOT
  | COLD
  | FROZEN
deriving DecidableEq

/-- A band state is one classification per loop position (`HLSCppOptimizer::BandState`). -/
abbrev BandState := List LoopState

/-- Embeds `HLSCppOptimizer::loopBandIsFrozen`: scan the vector, returning
false at the first element that is not FROZEN. -/
def loopBandIsFrozen : BandState → Bool
  | [] => true
  | loopState :: rest =>
    if loopState ≠ LoopState.FROZEN then false else loopBandIsFrozen rest

/-- Embeds `HLSCppOptimizer::loopBandIsColdOrFrozen`: scan the vector,
returning false at the first HOT element. -/
def loopBandIsColdOrFrozen : BandState → Bool
  | [] => true
  | loopState :: rest =>
    if loopState = LoopState.HOT then false else loopBandIsColdOrFrozen rest

/-- Embeds the counting loop of `HLSCppOptimizer::loopBandIsOneHot`. -/
def hotNum : BandState → Nat
  | [] => 0
  | loopState :: rest => (if loopState = LoopState.HOT then 1 else 0) + hotNum rest

/-- Embeds `HLSCppOptimizer::loopBandIsOneHot`: count HOT elements and
compare the count with one. -/
def loopBandIsOneHot (bandState : BandState) : Bool :=
  if hotNum bandState = 1 then true else false

/-! ### The tiling transform (`tile` inside `applyLoopTilingStrategy`)

Modelled from the spec: the implementation of the loop-tiling transform
invoked by `HLSCppOptimizer::applyLoopTilingStrategy` is only declared in
`MultipleLevelDSE.h`; its definition is not among the repository sources.
Following the spec contract, `tile` splits a loop with statically known trip
count `N` into an outer loop stepping over chunk starts and an inner loop
over one chunk, and fails if the factor is non-positive or the trip count is
not statically known. -/

/-- Result of tiling a loop of trip count `tripCount` by `factor`: the outer
loop runs over chunks of size `factor`. -/
structure TiledLoop where
  tripCount : Nat
  factor : Nat
deriving DecidableEq

/-- Trip count of the outer loop of the tiled pair. -/
def TiledLoop.outerTrip (t : TiledLoop) : Nat :=
  (t.tripCount + t.factor - 1) / t.factor

/-- Trip count of the inner loop at outer iteration `o` (the last chunk may
be shorter). -/
def TiledLoop.innerTrip (t : TiledLoop) (o : Nat) : Nat :=
  min t.factor (t.tripCount - o * t.factor)

/-- Iteration indices visited by the tiled loop pair, in execution order. -/
def TiledLoop.enum (t : TiledLoop) : List Nat :=
  (List.range t.outerTrip).flatMap fun o =>
    (List.range (t.innerTrip o)).map fun i => o * t.factor + i

/-- Modelled from the spec: `tile(loop, factor)` splits a loop with trip
count N into an outer/inner pair; it fails if `factor ≤ 0` or the loop bound
is not statically known (`tripCount = none`). -/
def tile (tripCount : Option Nat) (factor : Int) : Option TiledLoop :=
  match tripCount with
  | none => none
  | some n => if factor ≤ 0 then none else some ⟨n, factor.toNat⟩

/-- Iteration indices of the untiled loop, in execution order. -/
def untiledEnum (n : Nat) : List Nat :=
  List.range n

/-! ### Emitter data model (`EmitHLSCpp.cpp`)

Values, types and constant attributes as far as the emitter inspects them.
A C++ `double` is embedded as either a finite rational payload or one of the
non-finite cases; the emitter only branches on `std::isfinite` and
`value > 0`, which are faithfully defined on this embedding (IEEE
comparisons with NaN are false). -/

/-- Embedding of a C++ `double` as inspected by the emitter. -/
inductive MDouble
  | finite (q : Rat)
  | posInf
  | negInf
  | nan
deriving DecidableEq

/-- Embeds `std::isfinite`. -/
def MDouble.isfinite : MDouble → Bool
  | .finite _ => true
  | _ => false

/-- Embeds the C++ comparison `value > 0` (false for NaN, per IEEE). -/
def MDouble.gtZero : MDouble → Bool
  | .finite q => decide (0 < q)
  | .posInf => true
  | .negInf => false
  | .nan => false

/-- Rendering of a finite double by `std::to_string`; the exact decimal
formatting of a finite floating value is abstracted as the canonical
rational literal (the claims only distinguish finite literals from the
INFINITY sentinels). -/
def floatFiniteLit : MDouble → String
  | .finite q => toString q
  | _ => ""

/-- Embeds the float branch of `HLSCppEmitterBase::getName`: finite values
render as a finite literal, positive non-finite as INFINITY, any other
non-finite (negative infinity or NaN) as -INFINITY. -/
def floatConstText (d : MDouble) : String :=
  if d.isfinite then floatFiniteLit d
  else if d.gtZero then "INFINITY"
  else "-INFINITY"

/-- Embeds the float element rendering of `ModuleEmitter::emitConstant`
(dense initializers); the F32 and F64 branches share this structure. -/
def denseFloatElemText (d : MDouble) : String :=
  if d.isfinite then floatFiniteLit d
  else if d.gtZero then "INFINITY"
  else "-INFINITY"

/-- Scalar types distinguished by `ModuleEmitter::emitValue`. -/
inductive ScalarType
  | f32
  | f64
  | index
  | intTy (width : Nat) (unsigned : Bool)
  | unsupported
deriving DecidableEq

/-- Type of a value: scalar element type plus optional shape.  For a shaped
(memref/tensor/vector) value, `elem` is the element type, `ranked` records
whether the shape is ranked at all, and `dims` has one entry per dimension
(`none` marks a dynamic extent). -/
structure MType where
  shaped : Bool
  ranked : Bool
  dims : List (Option Nat)
  elem : ScalarType
deriving DecidableEq

/-- Embeds `ShapedType::hasStaticShape`: ranked and every extent known. -/
def MType.hasStaticShape (t : MType) : Bool :=
  t.ranked && t.dims.all fun d => d.isSome

/-- Constant attribute on a defining `ConstantOp`, as far as `getName` and
`emitConstant` inspect it. -/
inductive DenseElem
  | fElem (d : MDouble)
  | iElem (z : Int)
  | bElem (b : Bool)
deriving DecidableEq

/-- Constant attribute kinds inspected by the emitter. -/
inductive CAttr
  | floatA (d : MDouble)
  | intA (z : Int)
  | boolA (b : Bool)
  | denseA (elems : List DenseElem)
deriving DecidableEq

/-- An IR value: identity, type, and the constant attribute of its defining
operation when that operation is a `ConstantOp`. -/
structure MValue where
  vid : Nat
  ty : MType
  const : Option CAttr
deriving DecidableEq

/-! ### The value-name table (`HLSCppEmitterState` / `HLSCppEmitterBase`) -/

/-- Embeds the `nameTable` `DenseMap` of `HLSCppEmitterState` as an
association list; its `size()` is the list length (keys are unique because
`addName`/`addAlias` assert the key is not yet declared). -/
structure EmitterState where
  nameTable : List (MValue × String)
deriving DecidableEq

/-- The state at the start of one emission run. -/
def emptyState : EmitterState := ⟨[]⟩

/-- Embeds `DenseMap::lookup`: the mapped name, or a default-constructed
(empty) string when the key is absent. -/
def lookupName (s : EmitterState) (v : MValue) : String :=
  match s.nameTable.find? (fun e => e.1 == v) with
  | some e => e.2
  | none => ""

/-- The literal text of a scalar constant attribute (`FloatAttr`,
`IntegerAttr`, `BoolAttr`); `none` for a dense attribute, which falls
through to the table lookup in `getName`. -/
def constLiteral : CAttr → Option String
  | .floatA d => some (floatConstText d)
  | .intA z => some (intDecimalString z)
  | .boolA b => some (decimalString (if b then 1 else 0))
  | .denseA _ => none

/-- Embeds `HLSCppEmitterBase::getName`: scalar constants render as their
literal; every other value is looked up in the name table. -/
def getName (s : EmitterState) (v : MValue) : String :=
  match v.const with
  | some a =>
    match constLiteral a with
    | some t => t
    | none => lookupName s v
  | none => lookupName s v

/-- Embeds `HLSCppEmitterBase::isDeclared`. -/
def isDeclared (s : EmitterState) (v : MValue) : Bool :=
  getName s v ≠ ""

/-- The name text built by `HLSCppEmitterBase::addName`: an optional leading
`*` (pointer marker) followed by `val` and the current table size. -/
def renderName (isPtr : Bool) (k : Nat) : String :=
  (if isPtr then "*" else "") ++ "val" ++ decimalString k

/-- Embeds `HLSCppEmitterBase::addName`; the `assert(!isDeclared(val))` is
embedded as failure (`none`). -/
def addName (s : EmitterState) (v : MValue) (isPtr : Bool) : Option (String × EmitterState) :=
  if isDeclared s v then none
  else
    let valName := renderName isPtr s.nameTable.length
    some (valName, ⟨(v, valName) :: s.nameTable⟩)

/-- Embeds `HLSCppEmitterBase::addAlias`; the asserts (`alias` undeclared,
`val` declared) are embedded as failure (`none`). -/
def addAlias (s : EmitterState) (v al : MValue) : Option (String × EmitterState) :=
  if isDeclared s al then none
  else if ¬ isDeclared s v then none
  else some (getName s v, ⟨(al, getName s v) :: s.nameTable⟩)

/-! ### Value and array-declaration emission (`ModuleEmitter`) -/

/-- Embeds the type prefix written by `ModuleEmitter::emitValue`; `none`
marks the "has unsupported type." diagnostic (after which emission
continues with no type text). -/
def scalarTypeText : ScalarType → Option String
  | .f32 => some "float "
  | .f64 => some "double "
  | .index => some "int "
  | .intTy w u =>
    if w = 1 then some "bool "
    else some ("ap_" ++ (if u then "u" else "") ++ "int<" ++ decimalString w ++ "> ")
  | .unsupported => none

/-- The `[idx0][idx1]...` subscripts written by `emitValue` for `rank`
scalarized dimensions, in ascending order. -/
def idxSubscripts : Nat → String
  | 0 => ""
  | r + 1 => idxSubscripts r ++ "[idx" ++ decimalString r ++ "]"

/-- Embeds `ModuleEmitter::emitValue`: a declared value (or constant)
renders its existing name/literal; an undeclared value renders its type
text followed by a freshly added name.  Returns the emitted text, the new
state, and whether the unsupported-type diagnostic fired.  The
`assert(!(rank && isPtr))` is embedded as failure.  (For a shaped value the
type model already stores the element type in `ty.elem`, mirroring the
element-type extraction in the source.) -/
def emitValue (s : EmitterState) (v : MValue) (rank : Nat) (isPtr : Bool) :
    Option (String × EmitterState × Bool) :=
  if rank ≠ 0 ∧ isPtr then none
  else if isDeclared s v then some (getName s v ++ idxSubscripts rank, s, false)
  else
    match addName s v isPtr with
    | none => none
    | some (n, s1) =>
      match scalarTypeText v.ty.elem with
      | some tyText => some (tyText ++ n ++ idxSubscripts rank, s1, false)
      | none => some (n ++ idxSubscripts rank, s1, true)

/-- Embeds `ModuleEmitter::emitArrayDecl`: asserts the array is not yet
declared; a static shape renders the element declaration plus one explicit
extent per dimension; otherwise the value is declared as a raw pointer
(`emitValue` with `isPtr`), with no extents. -/
def emitArrayDecl (s : EmitterState) (array : MValue) : Option (String × EmitterState × Bool) :=
  if isDeclared s array then none
  else if array.ty.hasStaticShape then
    match emitValue s array 0 false with
    | none => none
    | some (txt, s1, err) =>
      some (txt ++ String.join (array.ty.dims.map fun d =>
        "[" ++ decimalString (d.getD 0) ++ "]"), s1, err)
  else emitValue s array 0 true

/-- Embeds `ModuleEmitter::emitAlloc`: an already-declared result emits
nothing; otherwise the dynamic-shape diagnostic fires when the type has no
static shape (with no early return), and the declaration line is emitted
via `emitArrayDecl` in either case.  The trailing location comment of
`emitInfoAndNewLine` and the `emitArrayPragmas` call (which appends pragma
directives, never declarations) are elided. -/
def emitAlloc (s : EmitterState) (v : MValue) : Option (List String × EmitterState × Bool) :=
  if isDeclared s v then some ([], s, false)
  else
    let shapeErr := !v.ty.hasStaticShape
    match emitArrayDecl s v with
    | none => none
    | some (txt, s1, err) => some ([txt ++ ";"], s1, shapeErr || err)

/-! ### Concrete example data for witness runs -/

/-- Example scalar f32 type for concrete runs. -/
def scalarF32 : MType := ⟨false, true, [], ScalarType.f32⟩

/-- Example non-constant scalar value with a given identity. -/
def exVal (i : Nat) : MValue := ⟨i, scalarF32, none⟩

/-- Example value whose defining operation is a constant with attribute `a`. -/
def exConst (a : CAttr) : MValue := ⟨9, scalarF32, some a⟩

/-- Example memref type with one static and one dynamic extent. -/
def dynArrTy : MType := ⟨true, true, [some 4, none], ScalarType.f32⟩

/-- Example alloc result of dynamic shape. -/
def dynVal : MValue := ⟨0, dynArrTy, none⟩

/-- Example memref type of fully static shape. -/
def statArrTy : MType := ⟨true, true, [some 2, some 3], ScalarType.f64⟩

/-- Example alloc result of static shape. -/
def statVal : MValue := ⟨0, statArrTy, none⟩

/-! ### Name-table runs

A run of the naming primitives during one emission, used to state the
uniqueness invariant.  `runEvents` threads the state through a sequence of
`addName`/`addAlias` calls and records the `(value, name)` pairs produced
by `addName`; it fails if any embedded assert fails. -/

/-- One naming action during an emission run. -/
inductive NameEvent
  | nameOp (v : MValue) (isPtr : Bool)
  | aliasOp (v al : MValue)

/-- Run a sequence of naming actions from a state, collecting the
`(value, name)` pairs assigned by `addName`. -/
def runEvents : EmitterState → List NameEvent → Option (EmitterState × List (MValue × String))
  | s, [] => some (s, [])
  | s, .nameOp v p :: rest =>
    match addName s v p with
    | none => none
    | some (n, s1) =>
      match runEvents s1 rest with
      | none => none
      | some (sf, ds) => some (sf, (v, n) :: ds)
  | s, .aliasOp v al :: rest =>
    match addAlias s v al with
    | none => none
    | some (_, s1) => runEvents s1 rest

/-! ### Loop emission (`ModuleEmitter::emitAffineFor` / `emitScfFor`)

The loop header text (bounds rendered from the affine maps or the scf bound
values) is taken as a parameter: the claims concern the pragma placement
logic after the opening brace, which is embedded verbatim.  Output is a
list of rendered lines; the per-line location/schedule trailer of
`emitInfoAndNewLine` is elided.

`getIntAttrValue` is declared on `HLSCppAnalysisBase`, whose implementation
is not among the repository sources; modelled from the spec: it reads the
integer/boolean attribute and yields 0 when the attribute is absent or
false. -/

/-- Loop pragma attributes read by the loop emitters: `pipeline` and
`target_ii` (absent = unset). -/
structure LoopAttrs where
  pipeline : Option Int
  target_ii : Option Int
deriving DecidableEq

/-- Modelled from the spec: `HLSCppAnalysisBase::getIntAttrValue` (its
implementation is not among the repository sources), reading an integer or
boolean attribute as an integer, 0 when absent. -/
def getIntAttrValue (attr : Option Int) : Int :=
  attr.getD 0

/-- Indentation text for the current indent counter. -/
def indentText (n : Nat) : String :=
  String.mk (List.replicate n ' ')

/-- Embeds the body skeleton of `ModuleEmitter::emitAffineFor`: the header
line with the opening brace, then (two columns deeper) the pipeline pragma
when the `pipeline` attribute value is truthy, then the body lines, then
the closing brace. -/
def emitAffineFor (ind : Nat) (headerText : String) (attrs : LoopAttrs)
    (bodyLines : List String) : List String :=
  (indentText ind ++ "for (" ++ headerText ++ ") \x7b") ::
  ((if getIntAttrValue attrs.pipeline ≠ 0 then
      [indentText (ind + 2) ++ "#pragma HLS pipeline II=" ++
        intDecimalString (getIntAttrValue attrs.target_ii)]
    else []) ++
   bodyLines ++ [indentText ind ++ "\x7d"])

/-- Embeds the body skeleton of `ModuleEmitter::emitScfFor`, which is
identical to the affine one in the pragma-relevant region. -/
def emitScfFor (ind : Nat) (headerText : String) (attrs : LoopAttrs)
    (bodyLines : List String) : List String :=
  (indentText ind ++ "for (" ++ headerText ++ ") \x7b") ::
  ((if getIntAttrValue attrs.pipeline ≠ 0 then
      [indentText (ind + 2) ++ "#pragma HLS pipeline II=" ++
        intDecimalString (getIntAttrValue attrs.target_ii)]
    else []) ++
   bodyLines ++ [indentText ind ++ "\x7d"])

/-! ### Dispatch catalogues and block emission (`emitBlock`, `Visitor.h`)

Operation kinds as distinguished by the three dispatchers.  `cmpF` carries
whether its predicate is one the emitter supports (the default arm of the
`CmpFOp` switch reports "has unsupported compare type." and returns false);
the `CmpIOp` switch covers every predicate.  `unregistered` stands for any
operation kind outside all catalogues. -/

/-- Operation kinds distinguished by the dispatchers. -/
inductive OpKind
  | scfFor | scfIf | scfParallel | scfReduce | scfReduceReturn | scfYield
  | affineFor | affineIf | affineParallel | affineApply | affineMax | affineMin
  | affineLoad | affineStore | affineYield | affineVectorLoad | affineVectorStore
  | affineDmaStart | affineDmaWait
  | alloc | alloca | load | store | dealloc | dmaStart | dmaWait | atomicRMW
  | genericAtomicRMW | atomicYield | memRefCast | view | subView
  | tensorLoad | tensorStore | tensorToMemref | splat | dim | rank
  | absF | ceilF | negF | cosK | sinK | tanhK | sqrtK | rsqrtK
  | expK | exp2K | logK | log2K | log10K
  | cmpF (supportedPred : Bool) | addF | subF | mulF | divF | remF
  | cmpI | addI | subI | mulI | signedDivI | signedRemI
  | unsignedDivI | unsignedRemI | xorK | andK | orK | shiftLeft
  | signedShiftRight | unsignedShiftRight
  | selectK | constantK | copySign | truncateI | zeroExtendI | signExtendI
  | indexCast | callK | returnK | uiToFP | siToFP | fpToSI | fpToUI
  | assignK | endK
  | dense | conv | maxPool | relu | merge | copyK
  | amax | amin | asum | axpy | dot | gbmv | gemm | gemv | nrm2
  | scal | swapK | symmK | symv | syrk | syr2k | trmm | trmv
  | fft | psqrt | ipK
  | unregistered (nm : String)

open OpKind

/-- The `TypeSwitch` case list of `HLSCppVisitorBase::dispatchVisitor`
(`Dialect/HLSCpp/Visitor.h`); operations outside it reach that base's
`visitInvalidOp`, which just returns false (its error/abort is commented
out). -/
def hlsCppCase : OpKind → Bool
  | scfFor | scfIf | scfParallel | scfReduce | scfReduceReturn | scfYield => true
  | affineFor | affineIf | affineParallel | affineApply | affineMax | affineMin => true
  | affineLoad | affineStore | affineYield | affineVectorLoad | affineVectorStore => true
  | affineDmaStart | affineDmaWait => true
  | alloc | alloca | load | store | dealloc | dmaStart | dmaWait | atomicRMW => true
  | genericAtomicRMW | atomicYield | memRefCast | view | subView => true
  | tensorLoad | tensorStore | tensorToMemref | splat | dim | rank => true
  | absF | ceilF | negF | cosK | sinK | tanhK | sqrtK | rsqrtK => true
  | expK | exp2K | logK | log2K | log10K => true
  | cmpF _ | addF | subF | mulF | divF | remF => true
  | cmpI | addI | subI | mulI | signedDivI | signedRemI => true
  | unsignedDivI | unsignedRemI | xorK | andK | orK | shiftLeft => true
  | signedShiftRight | unsignedShiftRight => true
  | selectK | constantK | copySign | truncateI | zeroExtendI | signExtendI => true
  | indexCast | callK | returnK | uiToFP | siToFP | fpToSI | fpToUI => true
  | assignK | endK => true
  | _ => false

/-- The `TypeSwitch` case list of `HLSKernelVisitorBase::dispatchVisitor`
(`Dialect/HLSKernel/Visitor.h`): the CNN and BLAS operations only.  Note
`FFTOp`, `PSqrtOp` and `IPOp` are absent from this list even though
`IPVisitor` declares emitters for them. -/
def hlsKernelCase : OpKind → Bool
  | dense | conv | maxPool | relu | merge | copyK => true
  | amax | amin | asum | axpy | dot | gbmv | gemm | gemv | nrm2 => true
  | scal | swapK | symmK | symv | syrk | syr2k | trmm | trmv => true
  | _ => false

/-- The `visitOp` overloads of `ExprVisitor` that emit and return true; an
operation in the HLSCpp catalogue without an overload falls to
`visitUnhandledOp`, returning false.  A `CmpFOp` with an unsupported
predicate returns false from the default switch arm. -/
def exprVisitOp : OpKind → Bool
  | cmpF supported => supported
  | addF | subF | mulF | divF | remF => true
  | cmpI | addI | subI | mulI | signedDivI | signedRemI => true
  | unsignedDivI | unsignedRemI | xorK | andK | orK | shiftLeft => true
  | signedShiftRight | unsignedShiftRight => true
  | absF | ceilF | negF | cosK | sinK | tanhK | sqrtK | rsqrtK => true
  | expK | exp2K | logK | log2K | log10K => true
  | selectK | constantK | indexCast | uiToFP | siToFP | fpToUI | fpToSI => true
  | callK | returnK => true
  | _ => false

/-- The `visitOp` overloads of `StmtVisitor` that emit and return true. -/
def stmtVisitOp : OpKind → Bool
  | scfFor | scfIf | scfParallel | scfReduce | scfReduceReturn | scfYield => true
  | affineFor | affineIf | affineParallel | affineApply | affineMax | affineMin => true
  | affineLoad | affineStore | affineYield => true
  | alloc | alloca | load | store | dealloc => true
  | tensorLoad | tensorStore | tensorToMemref | dim | rank => true
  | assignK | endK => true
  | _ => false

/-- The `visitOp` overloads of `IPVisitor` that emit and return true.  The
`fft`, `psqrt` and `ipK` overloads exist in the source but are unreachable
because those kinds are missing from the HLSKernel `TypeSwitch` case
list. -/
def ipVisitOp : OpKind → Bool
  | amax | amin | asum | axpy | dot | gbmv | gemm | gemv | nrm2 => true
  | scal | swapK | symv | trmv => true
  | fft | psqrt | ipK => true
  | _ => false

/-- Embeds `ExprVisitor(*this).dispatchVisitor(&op)` as used in
`emitBlock`. -/
def exprDispatch (k : OpKind) : Bool :=
  if hlsCppCase k then exprVisitOp k else false

/-- Embeds `StmtVisitor(*this).dispatchVisitor(&op)` as used in
`emitBlock`. -/
def stmtDispatch (k : OpKind) : Bool :=
  if hlsCppCase k then stmtVisitOp k else false

/-- Embeds `IPVisitor(*this).dispatchVisitor(&op)`: inside the HLSKernel
catalogue the visitor returns a boolean; outside it the base class's
`visitInvalidOp` runs, which emits "is unsupported operation." at the node
and then calls `abort()` — embedded as `none`. -/
def ipDispatch (k : OpKind) : Option Bool :=
  if hlsKernelCase k then some (ipVisitOp k) else none

/-- Outcome of dispatching one operation in `ModuleEmitter::emitBlock`. -/
inductive StepOutcome
  | emitted
  | errorContinue
  | abortRun

/-- The dispatch cascade of `ModuleEmitter::emitBlock` for one operation:
expression visitor, then statement visitor, then IP visitor; when all three
decline, the "can't be correctly emitted." diagnostic fires (and emission
continues); when the IP visitor's `TypeSwitch` default runs, the process
aborts. -/
def dispatchOp (k : OpKind) : StepOutcome :=
  if exprDispatch k then .emitted
  else if stmtDispatch k then .emitted
  else
    match ipDispatch k with
    | some true => .emitted
    | some false => .errorContinue
    | none => .abortRun

/-- Result of emitting one block: the operations named by a "can't be
correctly emitted." diagnostic (each of which sets the emitter's
`encounteredError` failure flag), the failure flag itself, the operation at
which the process aborted (if any), and the sibling operations left
unprocessed by such an abort. -/
structure BlockResult where
  diagnosed : List OpKind
  encounteredError : Bool
  abortedAt : Option OpKind
  unprocessed : List OpKind

/-- Embeds the loop of `ModuleEmitter::emitBlock` over the operations of a
block. -/
def emitBlock : List OpKind → BlockResult
  | [] => ⟨[], false, none, []⟩
  | k :: rest =>
    match dispatchOp k with
    | .emitted => emitBlock rest
    | .errorContinue =>
      let r := emitBlock rest
      ⟨k :: r.diagnosed, true, r.abortedAt, r.unprocessed⟩
    | .abortRun => ⟨[], false, some k, rest⟩

/-! ### The annotator pass (`ConvertToHLSCpp.cpp`)

The walk of `ConvertToHLSCpp::runOnOperation` that wraps array-typed
operands in `ArrayOp` wrappers.  The IR is a flat list of operations in
program order; values are block arguments or operation results; types
record shapedness and static-shapedness.  Attribute initialization on the
wrapper (`interface`/`storage`/`partition`) does not affect the wrapping
logic and is modelled separately for claim C10. -/

/-- Kinds of operations the wrapping logic distinguishes. -/
inductive WKind
  | arrayOp
  | assignOp
  | otherOp
deriving DecidableEq

/-- A value: block argument or result of the operation with the given id. -/
inductive WValue
  | arg (n : Nat)
  | res (i : Nat)
deriving DecidableEq

/-- Type information the wrapping logic reads. -/
structure WTy where
  shaped : Bool
  staticShape : Bool
deriving DecidableEq

/-- An operation: unique id, kind, operand list, result type. -/
structure WOp where
  oid : Nat
  kind : WKind
  operands : List WValue
  resTy : WTy
deriving DecidableEq

/-- A function body: operations in program order. -/
abbrev WIR := List WOp

/-- Block-argument types of the enclosing function. -/
abbrev ArgTys := Nat → WTy

/-- Look up the operation with a given id. -/
def findOp (ir : WIR) (i : Nat) : Option WOp :=
  ir.find? fun o => o.oid == i

/-- Type of a value. -/
def valTy (argTy : ArgTys) (ir : WIR) : WValue → WTy
  | .arg n => argTy n
  | .res i =>
    match findOp ir i with
    | some d => d.resTy
    | none => ⟨false, false⟩

/-- Embeds `builder.setInsertionPointAfterValue(operand)`: a wrapper for a
block argument goes to the start of the block; a wrapper for an operation
result goes immediately after the defining operation. -/
def wrapperPos (ir : WIR) : WValue → Nat
  | .arg _ => 0
  | .res i => (ir.findIdx fun o => o.oid == i) + 1

/-- Insert an operation at a position of the program order. -/
def insertAt (ir : WIR) (idx : Nat) (w : WOp) : WIR :=
  ir.take idx ++ w :: ir.drop idx

/-- The per-operation effect of `replaceAllUsesExcept`: the wrapper itself
is excluded; every other operation has its uses of `v` redirected. -/
def redirectOp (v : WValue) (wId : Nat) (o : WOp) : WOp :=
  if o.oid == wId then o
  else { o with operands := o.operands.map fun u => if u == v then .res wId else u }

/-- Embeds `operand.replaceAllUsesExcept(arrayOp.getResult(), {arrayOp})`:
every use of `v` in every operation other than the wrapper itself is
redirected to the wrapper's result. -/
def redirectUses (ir : WIR) (v : WValue) (wId : Nat) : WIR :=
  ir.map (redirectOp v wId)

/-- State threaded through the pass: the IR, the next fresh operation id,
and the count of "is unranked or has dynamic shape which is illegal."
diagnostics. -/
structure PassState where
  ir : WIR
  fresh : Nat
  errs : Nat
deriving DecidableEq

/-- The `insertArrayOp` decision of the annotator walk together with the
dynamic-shape diagnostic: a block argument is wrapped silently; a value not
defined by an `ArrayOp`/`AssignOp` is wrapped, with the "is unranked or has
dynamic shape which is illegal." diagnostic when its type has no static
shape; a wrapper-produced value is left alone. -/
def wrapDecision (st : PassState) (ty : WTy) : WValue → Bool × Bool
  | .arg _ => (true, false)
  | .res i =>
    match findOp st.ir i with
    | some d =>
      if d.kind = WKind.arrayOp ∨ d.kind = WKind.assignOp then (false, false)
      else (true, !ty.staticShape)
    | none => (false, false)

/-- The effect of the operand loop body on one shaped-or-not operand `v` of
operation `o`: compute `insertArrayOp` (forced off when `o` itself is an
`ArrayOp`), count the diagnostic, and when wrapping insert the wrapper
after the operand's definition and redirect all uses except the wrapper
itself. -/
def applyWrap (argTy : ArgTys) (st : PassState) (o : WOp) (v : WValue) : PassState :=
  let ty := valTy argTy st.ir v
  if ty.shaped then
    let dec := wrapDecision st ty v
    let ins := if o.kind = WKind.arrayOp then false else dec.1
    let errs1 := st.errs + (if dec.2 then 1 else 0)
    if ins then
      let w : WOp := ⟨st.fresh, WKind.arrayOp, [v], ty⟩
      let ir1 := insertAt st.ir (wrapperPos st.ir v) w
      let ir2 := redirectUses ir1 v st.fresh
      ⟨ir2, st.fresh + 1, errs1⟩
    else ⟨st.ir, st.fresh, errs1⟩
  else st

/-- Embeds one iteration of the operand loop in the annotator walk for
operand `j` of the operation with id `opId`. -/
def processOperand (argTy : ArgTys) (opId : Nat) (st : PassState) (j : Nat) : PassState :=
  match findOp st.ir opId with
  | none => st
  | some o =>
    match o.operands.get? j with
    | none => st
    | some v => applyWrap argTy st o v

/-- Process every operand position of the operation with id `opId` (operand
counts are stable under redirection, so the count read at entry matches the
source's live iteration). -/
def processOp (argTy : ArgTys) (st : PassState) (opId : Nat) : PassState :=
  match findOp st.ir opId with
  | none => st
  | some o => (List.range o.operands.length).foldl (processOperand argTy opId) st

/-- Embeds the wrapping walk of `ConvertToHLSCpp::runOnOperation`: visit the
operations present at the start of the pass, in program order (wrappers are
inserted before the walk cursor, hence never themselves visited). -/
def convertWalk (argTy : ArgTys) (st : PassState) : PassState :=
  (st.ir.map fun o => o.oid).foldl (processOp argTy) st

/-- A value is produced by a wrapper operation (array or assign wrapper). -/
def wrapperProduced (ir : WIR) (v : WValue) : Prop :=
  ∃ i d, v = WValue.res i ∧ findOp ir i = some d ∧
    (d.kind = WKind.arrayOp ∨ d.kind = WKind.assignOp)

/-- Operation ids are pairwise distinct. -/
def idsNodup (ir : WIR) : Prop :=
  (ir.map fun o => o.oid).Nodup

/-- Every id is below the fresh-id counter. -/
def idBound (ir : WIR) (fresh : Nat) : Prop :=
  ∀ o ∈ ir, o.oid < fresh

/-- Whether a value reference resolves inside the IR. -/
def resolves (ir : WIR) : WValue → Bool
  | .arg _ => true
  | .res i => (findOp ir i).isSome

/-- Every operand reference resolves. -/
def closedIR (ir : WIR) : Prop :=
  ∀ o ∈ ir, ∀ v ∈ o.operands, resolves ir v = true

/-- Well-formedness of a pass state. -/
def WFState (st : PassState) : Prop :=
  idsNodup st.ir ∧ idBound st.ir st.fresh ∧ closedIR st.ir

/-- Operand slot `j` of the non-wrapper operation with id `oid` refers to a
wrapper-produced value (when shaped). -/
def slotGood (argTy : ArgTys) (ir : WIR) (oid j : Nat) : Prop :=
  ∀ o, findOp ir oid = some o → o.kind ≠ WKind.arrayOp →
    ∀ v, o.operands.get? j = some v →
      (valTy argTy ir v).shaped = true → wrapperProduced ir v

/-- Postcondition of the annotator walk: every shaped operand of every
non-wrapper operation is produced by a wrapper. -/
def allWrapped (argTy : ArgTys) (ir : WIR) : Prop :=
  ∀ o ∈ ir, o.kind ≠ WKind.arrayOp → ∀ v ∈ o.operands,
    (valTy argTy ir v).shaped = true → wrapperProduced ir v

/-- Example argument types for annotator-walk runs: every block argument is
a static-shaped array. -/
def exArgTy : ArgTys := fun _ => ⟨true, true⟩

/-- Example input IR for the annotator walk: a computation producing an
array from a block argument, and a consumer of both. -/
def exIR : WIR :=
  [⟨0, WKind.otherOp, [WValue.arg 0], ⟨true, true⟩⟩,
   ⟨1, WKind.otherOp, [WValue.res 0, WValue.arg 0], ⟨false, false⟩⟩]

/-- Example initial pass state for the annotator walk. -/
def exSt : PassState := ⟨exIR, 10, 0⟩


/-! ### Annotator attribute defaults (`ConvertToHLSCpp.cpp`, claim C10) -/

/-- Function attributes touched by the pass (attribute bag entries; `none`
is an absent attribute). -/
structure FuncAttrs where
  dataflow : Option Bool
deriving DecidableEq

/-- Embeds `func.setAttr("dataflow", b.getBoolAttr(false))`: unconditional
write. -/
def annotateFunc (a : FuncAttrs) : FuncAttrs :=
  { a with dataflow := some false }

/-- Loop attributes touched by the pass. -/
structure ForAttrs where
  pipeline : Option Bool
  unroll : Option Bool
  flatten : Option Bool
deriving DecidableEq

/-- Embeds the loop-attribute defaulting: each of `pipeline`, `unroll`,
`flatten` is set to false only when absent. -/
def annotateFor (a : ForAttrs) : ForAttrs :=
  { pipeline := if a.pipeline = none then some false else a.pipeline
    unroll := if a.unroll = none then some false else a.unroll
    flatten := if a.flatten = none then some false else a.flatten }

/-- Wrapper (`ArrayOp`) attributes touched by the pass. -/
structure ArrayAttrs where
  interface : Option Bool
  storage : Option Bool
  partition : Option Bool
deriving DecidableEq

/-- Embeds the wrapper-attribute defaulting: each of `interface`,
`storage`, `partition` is set to false only when absent. -/
def annotateArray (a : ArrayAttrs) : ArrayAttrs :=
  { interface := if a.interface = none then some false else a.interface
    storage := if a.storage = none then some false else a.storage
    partition := if a.partition = none then some false else a.partition }

/-! ## Supporting lemmas -/

theorem decVal_decDigitsAux : ∀ fuel n, n ≤ fuel → decVal (decDigitsAux fuel n) = n := by
  intro fuel
  induction fuel with
  | zero =>
    intro n h
    have hn : n = 0 := Nat.le_zero.mp h
    subst hn
    rfl
  | succ f ih =>
    intro n h
    by_cases hn : n = 0
    · subst hn; rfl
    · have hdiv : n / 10 ≤ f := by
        have : n / 10 < n := Nat.div_lt_self (Nat.pos_of_ne_zero hn) (by omega)
        omega
      simp only [decDigitsAux, hn, if_false, decVal, ih (n / 10) hdiv]
      omega

theorem decVal_decDigits (n : Nat) : decVal (decDigits n) = n :=
  decVal_decDigitsAux n n (Nat.le_refl n)

theorem decDigits_injective {a b : Nat} (h : decDigits a = decDigits b) : a = b := by
  have := decVal_decDigits a
  rw [h, decVal_decDigits b] at this
  exact this.symm

theorem decDigitsAux_lt_ten : ∀ fuel n d, d ∈ decDigitsAux fuel n → d < 10 := by
  intro fuel
  induction fuel with
  | zero => intro n d hd; simp [decDigitsAux] at hd
  | succ f ih =>
    intro n d hd
    by_cases hn : n = 0
    · subst hn; simp [decDigitsAux] at hd
    · simp only [decDigitsAux, hn, if_false, List.mem_cons] at hd
      rcases hd with h | h
      · subst h; exact Nat.mod_lt _ (by omega)
      · exact ih _ _ h

theorem decDigits_lt_ten (n d : Nat) (hd : d ∈ decDigits n) : d < 10 :=
  decDigitsAux_lt_ten n n d hd

theorem digitChar_inj_lt : ∀ a, a < 10 → ∀ b, b < 10 → Nat.digitChar a = Nat.digitChar b → a = b := by
  decide

theorem map_digitChar_inj : ∀ l1 l2 : List Nat, (∀ d ∈ l1, d < 10) → (∀ d ∈ l2, d < 10) →
    l1.map Nat.digitChar = l2.map Nat.digitChar → l1 = l2 := by
  intro l1
  induction l1 with
  | nil => intro l2 _ _ h; cases l2 with
    | nil => rfl
    | cons b bs => simp at h
  | cons a as ih =>
    intro l2 h1 h2 h
    cases l2 with
    | nil => simp at h
    | cons b bs =>
      simp only [List.map_cons, List.cons.injEq] at h
      have ha : a < 10 := h1 a (List.mem_cons_self a as)
      have hb : b < 10 := h2 b (List.mem_cons_self b bs)
      have hab : a = b := digitChar_inj_lt a ha b hb h.1
      have hrest : as = bs := ih bs (fun d hd => h1 d (List.mem_cons_of_mem a hd))
        (fun d hd => h2 d (List.mem_cons_of_mem b hd)) h.2
      rw [hab, hrest]

theorem decimalChars_ne_zero_chars {b : Nat} (hb : b ≠ 0) : decimalChars b ≠ ['0'] := by
  intro h
  simp only [decimalChars, hb, if_false] at h
  have h2 : (decDigits b).map Nat.digitChar = ['0'] := by
    have := congrArg List.reverse h
    simpa using this
  cases hdig : decDigits b with
  | nil =>
    have := decVal_decDigits b
    rw [hdig] at this
    exact hb this.symm
  | cons d rest =>
    rw [hdig] at h2
    simp only [List.map_cons, List.cons.injEq, List.map_eq_nil_iff] at h2
    have hd10 : d < 10 := decDigits_lt_ten b d (by rw [hdig]; exact List.mem_cons_self d rest)
    have hd0 : d = 0 := by
      have : Nat.digitChar d = Nat.digitChar 0 := h2.1
      exact digitChar_inj_lt d hd10 0 (by omega) this
    have := decVal_decDigits b
    rw [hdig, h2.2, hd0] at this
    simp [decVal] at this
    exact hb this.symm

theorem decimalChars_injective {a b : Nat} (h : decimalChars a = decimalChars b) : a = b := by
  by_cases ha : a = 0
  · by_cases hb : b = 0
    · rw [ha, hb]
    · subst ha
      exact absurd h.symm (decimalChars_ne_zero_chars hb)
  · by_cases hb : b = 0
    · subst hb
      exact absurd h (decimalChars_ne_zero_chars ha)
    · simp only [decimalChars, ha, hb, if_false] at h
      have h2 := List.reverse_injective h
      have h3 := map_digitChar_inj (decDigits a) (decDigits b)
        (decDigits_lt_ten a) (decDigits_lt_ten b) h2
      exact decDigits_injective h3

theorem decimalString_injective {a b : Nat} (h : decimalString a = decimalString b) : a = b := by
  have : decimalChars a = decimalChars b := congrArg String.data h
  exact decimalChars_injective this

theorem hotNum_eq_count (b : BandState) : hotNum b = b.count LoopState.HOT := by
  induction b with
  | nil => rfl
  | cons s rest ih =>
    by_cases hs : s = LoopState.HOT <;>
      simp [hotNum, ih, List.count_cons, hs] <;> omega

theorem tiledEnum_prefix (n f : Nat) (hf : 1 ≤ f) : ∀ c : Nat,
    ((List.range c).flatMap fun o =>
      (List.range (min f (n - o * f))).map fun i => o * f + i) =
    List.range (min (c * f) n) := by
  intro c
  induction c with
  | zero => simp
  | succ c ih =>
    rw [List.range_succ, List.flatMap_append, ih]
    simp only [List.flatMap_cons, List.flatMap_nil, List.append_nil]
    by_cases hc : c * f ≥ n
    · have h1 : min (c * f) n = n := by omega
      have h2 : n - c * f = 0 := by omega
      have h3 : min ((c + 1) * f) n = n := by
        have : (c + 1) * f = c * f + f := by ring
        omega
      rw [h1, h2, h3]
      simp
    · have h1 : min (c * f) n = c * f := by omega
      rw [h1, ← List.range_add]
      congr 1
      have : (c + 1) * f = c * f + f := by ring
      omega

theorem renderName_data (p : Bool) (k : Nat) :
    (renderName p k).data = (if p then ['*'] else []) ++ ('v' :: 'a' :: 'l' :: decimalChars k) := by
  have hval : ("val" : String).data = ['v', 'a', 'l'] := rfl
  have hdec : (decimalString k).data = decimalChars k := rfl
  cases p <;>
    simp [renderName, String.data_append, hval, hdec]

theorem renderName_inj {p1 p2 : Bool} {k1 k2 : Nat}
    (h : renderName p1 k1 = renderName p2 k2) : k1 = k2 := by
  have hd := congrArg String.data h
  rw [renderName_data, renderName_data] at hd
  apply decimalChars_injective
  cases p1 <;> cases p2 <;> simpa using hd

theorem addName_some {s : EmitterState} {v : MValue} {p : Bool} {n : String}
    {s1 : EmitterState} (h : addName s v p = some (n, s1)) :
    n = renderName p s.nameTable.length ∧ s1.nameTable = (v, n) :: s.nameTable ∧
    isDeclared s v = false := by
  cases hdecl : isDeclared s v <;> simp [addName, hdecl] at h
  obtain ⟨h1, h2⟩ := h
  exact ⟨h1.symm, by rw [← h2, h1], rfl⟩

theorem addAlias_some {s : EmitterState} {v al : MValue} {n : String}
    {s1 : EmitterState} (h : addAlias s v al = some (n, s1)) :
    n = getName s v ∧ s1.nameTable = (al, n) :: s.nameTable ∧
    isDeclared s al = false ∧ isDeclared s v = true := by
  cases hal : isDeclared s al <;> cases hv : isDeclared s v <;>
    simp [addAlias, hal, hv] at h
  obtain ⟨h1, h2⟩ := h
  exact ⟨h1.symm, by rw [← h2, h1], rfl, rfl⟩

theorem runEvents_spec : ∀ (evs : List NameEvent) (s sf : EmitterState)
    (ds : List (MValue × String)), runEvents s evs = some (sf, ds) →
    s.nameTable.length ≤ sf.nameTable.length ∧
    (∀ e ∈ ds, ∃ p k, e.2 = renderName p k ∧
      s.nameTable.length ≤ k ∧ k < sf.nameTable.length) ∧
    List.Pairwise (fun a b => a.2 ≠ b.2) ds := by
  intro evs
  induction evs with
  | nil =>
    intro s sf ds h
    simp only [runEvents, Option.some.injEq, Prod.mk.injEq] at h
    obtain ⟨h1, h2⟩ := h
    subst h1; subst h2
    exact ⟨Nat.le_refl _, by simp, by simp⟩
  | cons ev rest ih =>
    intro s sf ds h
    cases ev with
    | nameOp v p =>
      simp only [runEvents] at h
      cases hadd : addName s v p with
      | none => rw [hadd] at h; exact absurd h (by simp)
      | some pr =>
        obtain ⟨n, s1⟩ := pr
        rw [hadd] at h
        dsimp only at h
        cases hrun : runEvents s1 rest with
        | none => rw [hrun] at h; exact absurd h (by simp)
        | some pr2 =>
          obtain ⟨sf2, ds2⟩ := pr2
          rw [hrun] at h
          simp only [Option.some.injEq, Prod.mk.injEq] at h
          obtain ⟨hsf, hds⟩ := h
          obtain ⟨hn, htab, _⟩ := addName_some hadd
          have hlen : s1.nameTable.length = s.nameTable.length + 1 := by
            rw [htab]; rfl
          obtain ⟨ihlen, ihent, ihpw⟩ := ih s1 sf2 ds2 hrun
          rw [← hsf, ← hds]
          refine ⟨by omega, ?_, ?_⟩
          · intro e he
            rcases List.mem_cons.mp he with he | he
            · subst he
              exact ⟨p, s.nameTable.length, hn, Nat.le_refl _, by omega⟩
            · obtain ⟨p2, k2, hk1, hk2, hk3⟩ := ihent e he
              exact ⟨p2, k2, hk1, by omega, hk3⟩
          · refine List.Pairwise.cons ?_ ihpw
            intro e he heq
            obtain ⟨p2, k2, hk1, hk2, hk3⟩ := ihent e he
            have hnn : n = e.2 := heq
            have hkk := renderName_inj ((hn.symm.trans hnn).trans hk1)
            omega
    | aliasOp v al =>
      simp only [runEvents] at h
      cases hadd : addAlias s v al with
      | none => rw [hadd] at h; exact absurd h (by simp)
      | some pr =>
        obtain ⟨n, s1⟩ := pr
        rw [hadd] at h
        dsimp only at h
        obtain ⟨_, htab, _, _⟩ := addAlias_some hadd
        have hlen : s1.nameTable.length = s.nameTable.length + 1 := by
          rw [htab]; rfl
        obtain ⟨ihlen, ihent, ihpw⟩ := ih s1 sf ds h
        refine ⟨by omega, ?_, ihpw⟩
        intro e he
        obtain ⟨p2, k2, hk1, hk2, hk3⟩ := ihent e he
        exact ⟨p2, k2, hk1, by omega, hk3⟩

theorem tile_enum_eq (n f : Nat) (hf : 1 ≤ f) :
    (TiledLoop.mk n f).enum = untiledEnum n := by
  unfold TiledLoop.enum untiledEnum
  have h := tiledEnum_prefix n f hf ((TiledLoop.mk n f).outerTrip)
  simp only [TiledLoop.innerTrip] at h ⊢
  rw [h]
  congr 1
  show min (((n + f - 1) / f) * f) n = n
  have hq := Nat.div_add_mod (n + f - 1) f
  have hmod : (n + f - 1) % f < f := Nat.mod_lt _ (by omega)
  have hcomm : ((n + f - 1) / f) * f = f * ((n + f - 1) / f) := Nat.mul_comm _ _
  omega

/-! Toolkit for the annotator-pass proofs. -/

theorem redirectOp_oid (v : WValue) (wId : Nat) (o : WOp) : (redirectOp v wId o).oid = o.oid := by
  unfold redirectOp; split <;> rfl

theorem redirectOp_kind (v : WValue) (wId : Nat) (o : WOp) : (redirectOp v wId o).kind = o.kind := by
  unfold redirectOp; split <;> rfl

theorem redirectOp_resTy (v : WValue) (wId : Nat) (o : WOp) : (redirectOp v wId o).resTy = o.resTy := by
  unfold redirectOp; split <;> rfl

theorem redirectOp_operands_length (v : WValue) (wId : Nat) (o : WOp) :
    (redirectOp v wId o).operands.length = o.operands.length := by
  unfold redirectOp; split
  · rfl
  · exact List.length_map _ _

theorem findOp_redirectUses (ir : WIR) (v : WValue) (wId : Nat) (i : Nat) :
    findOp (redirectUses ir v wId) i = (findOp ir i).map (redirectOp v wId) := by
  unfold findOp redirectUses
  rw [List.find?_map]
  have hp : ((fun o : WOp => o.oid == i) ∘ redirectOp v wId) = fun o : WOp => o.oid == i := by
    funext o
    simp [Function.comp, redirectOp_oid]
  rw [hp]

theorem findOp_some_mem {ir : WIR} {i : Nat} {d : WOp} (h : findOp ir i = some d) :
    d ∈ ir ∧ d.oid = i := by
  unfold findOp at h
  refine ⟨List.mem_of_find?_eq_some h, ?_⟩
  have := List.find?_some h
  simpa using this

theorem findOp_eq_none {ir : WIR} {i : Nat} (h : ∀ o ∈ ir, o.oid ≠ i) : findOp ir i = none := by
  unfold findOp
  rw [List.find?_eq_none]
  intro o ho
  simpa using h o ho

theorem insertAt_perm (ir : WIR) (idx : Nat) (w : WOp) : (insertAt ir idx w).Perm (w :: ir) := by
  unfold insertAt
  have h := @List.perm_middle _ w (ir.take idx) (ir.drop idx)
  rw [List.take_append_drop] at h
  exact h

theorem mem_insertAt {a w : WOp} {ir : WIR} {idx : Nat} :
    a ∈ insertAt ir idx w ↔ a = w ∨ a ∈ ir := by
  rw [(insertAt_perm ir idx w).mem_iff, List.mem_cons]

theorem findOp_insertAt_ne (ir : WIR) (idx : Nat) (w : WOp) (i : Nat) (hne : ¬ w.oid = i) :
    findOp (insertAt ir idx w) i = findOp ir i := by
  unfold findOp insertAt
  rw [List.find?_append]
  conv_rhs => rw [← List.take_append_drop idx ir, List.find?_append]
  congr 1
  rw [List.find?_cons_of_neg]
  simpa using hne

theorem findOp_insertAt_self (ir : WIR) (idx : Nat) (w : WOp) (h : ∀ o ∈ ir, o.oid ≠ w.oid) :
    findOp (insertAt ir idx w) w.oid = some w := by
  unfold findOp insertAt
  rw [List.find?_append]
  have h1 : List.find? (fun o => o.oid == w.oid) (ir.take idx) = none := by
    rw [List.find?_eq_none]
    intro o ho
    simpa using h o (List.take_subset idx ir ho)
  rw [h1, List.find?_cons_of_pos]
  · rfl
  · simp

theorem map_oid_redirectUses (ir : WIR) (v : WValue) (wId : Nat) :
    (redirectUses ir v wId).map (fun o => o.oid) = ir.map fun o => o.oid := by
  unfold redirectUses
  rw [List.map_map]
  congr 1
  funext o
  exact redirectOp_oid v wId o

theorem valTy_redirectUses (argTy : ArgTys) (ir : WIR) (v : WValue) (wId : Nat) (u : WValue) :
    valTy argTy (redirectUses ir v wId) u = valTy argTy ir u := by
  cases u with
  | arg n => rfl
  | res i =>
    simp only [valTy]
    rw [findOp_redirectUses]
    cases findOp ir i with
    | none => rfl
    | some d => simp [redirectOp_resTy]

theorem valTy_insertAt_ne (argTy : ArgTys) (ir : WIR) (idx : Nat) (w : WOp) (u : WValue)
    (h : ∀ i, u = WValue.res i → ¬ w.oid = i) :
    valTy argTy (insertAt ir idx w) u = valTy argTy ir u := by
  cases u with
  | arg n => rfl
  | res i =>
    simp only [valTy]
    rw [findOp_insertAt_ne ir idx w i (h i rfl)]

theorem wrapperProduced_redirectUses {ir : WIR} {u : WValue} (v : WValue) (wId : Nat)
    (h : wrapperProduced ir u) : wrapperProduced (redirectUses ir v wId) u := by
  obtain ⟨i, d, hu, hf, hk⟩ := h
  refine ⟨i, redirectOp v wId d, hu, ?_, ?_⟩
  · rw [findOp_redirectUses, hf]; rfl
  · rw [redirectOp_kind]; exact hk

theorem wrapperProduced_insertAt {ir : WIR} {u : WValue} (idx : Nat) (w : WOp)
    (hw : ∀ o ∈ ir, o.oid ≠ w.oid) (h : wrapperProduced ir u) :
    wrapperProduced (insertAt ir idx w) u := by
  obtain ⟨i, d, hu, hf, hk⟩ := h
  have hmem := findOp_some_mem hf
  refine ⟨i, d, hu, ?_, hk⟩
  rw [findOp_insertAt_ne ir idx w i ?_]
  · exact hf
  · intro hwi
    exact hw d hmem.1 (by rw [hmem.2, hwi])

theorem redirectOp_self {v : WValue} {wId : Nat} {o : WOp} (h : o.oid = wId) :
    redirectOp v wId o = o := by
  unfold redirectOp
  simp [h]

theorem redirectOp_of_ne {v : WValue} {wId : Nat} {o : WOp} (h : ¬ o.oid = wId) :
    redirectOp v wId o =
      { o with operands := o.operands.map fun u => if u == v then WValue.res wId else u } := by
  unfold redirectOp
  simp [h]

theorem wrapStep_facts (argTy : ArgTys) (st : PassState) (opId : Nat) (o : WOp) (v : WValue)
    (j : Nat) (hwf : WFState st) (hfind : findOp st.ir opId = some o)
    (hget : o.operands.get? j = some v) (st2 : PassState)
    (hst2 : st2.ir = redirectUses (insertAt st.ir (wrapperPos st.ir v)
        ⟨st.fresh, WKind.arrayOp, [v], valTy argTy st.ir v⟩) v st.fresh)
    (hst2f : st2.fresh = st.fresh + 1) :
    WFState st2 ∧ st.fresh ≤ st2.fresh ∧
    (∀ a ∈ st2.ir, a.kind = WKind.arrayOp ∨
      ∃ o0, o0 ∈ st.ir ∧ o0.oid = a.oid ∧ o0.kind = a.kind) ∧
    (∀ i, i < st.fresh →
      (findOp st2.ir i).map (fun a => (a.kind, a.operands.length)) =
        (findOp st.ir i).map fun a => (a.kind, a.operands.length)) ∧
    (∀ oid2 j2, slotGood argTy st.ir oid2 j2 → slotGood argTy st2.ir oid2 j2) ∧
    slotGood argTy st2.ir opId j := by
  obtain ⟨hnd, hbd, hcl⟩ := hwf
  set w : WOp := ⟨st.fresh, WKind.arrayOp, [v], valTy argTy st.ir v⟩ with hw
  have hof := findOp_some_mem hfind
  have hvmem : v ∈ o.operands := List.get?_mem hget
  have hopIdlt : opId < st.fresh := by
    have := hbd o hof.1
    omega
  have hnotin : ∀ a ∈ st.ir, a.oid ≠ w.oid := by
    intro a ha
    have := hbd a ha
    show a.oid ≠ st.fresh
    omega
  have hfow : findOp st2.ir st.fresh = some w := by
    have h1 : findOp (insertAt st.ir (wrapperPos st.ir v) w) st.fresh = some w :=
      findOp_insertAt_self st.ir (wrapperPos st.ir v) w hnotin
    rw [hst2, findOp_redirectUses, h1]
    simp only [Option.map_some', Option.some.injEq]
    exact redirectOp_self rfl
  have hfo2_ne : ∀ i, ¬ i = st.fresh →
      findOp st2.ir i = (findOp st.ir i).map (redirectOp v st.fresh) := by
    intro i hi
    rw [hst2, findOp_redirectUses, findOp_insertAt_ne st.ir _ w i ?_]
    intro hwi
    exact hi (by rw [← hwi])
  have hclosed_res : ∀ b ∈ st.ir, ∀ u ∈ b.operands, ∀ i, u = WValue.res i →
      ∃ d, findOp st.ir i = some d := by
    intro b hb u hu i hui
    have := hcl b hb u hu
    rw [hui] at this
    simp only [resolves] at this
    exact Option.isSome_iff_exists.mp this
  have hres_ne_fresh : ∀ b ∈ st.ir, ∀ u ∈ b.operands, ∀ i, u = WValue.res i →
      ¬ i = st.fresh := by
    intro b hb u hu i hui hif
    obtain ⟨d, hd⟩ := hclosed_res b hb u hu i hui
    have hdm := findOp_some_mem hd
    exact hnotin d hdm.1 (by rw [hdm.2, hif])
  have hvalTy_pres : ∀ b ∈ st.ir, ∀ u ∈ b.operands,
      valTy argTy st2.ir u = valTy argTy st.ir u := by
    intro b hb u hu
    rw [hst2, valTy_redirectUses]
    apply valTy_insertAt_ne
    intro i hui hwi
    exact hres_ne_fresh b hb u hu i hui (by rw [← hwi])
  have hwp_lift : ∀ u, wrapperProduced st.ir u → wrapperProduced st2.ir u := by
    intro u hu
    rw [hst2]
    exact wrapperProduced_redirectUses _ _
      (wrapperProduced_insertAt (wrapperPos st.ir v) w hnotin hu)
  have hmem2 : ∀ a, a ∈ st2.ir ↔
      ∃ b, (b = w ∨ b ∈ st.ir) ∧ redirectOp v st.fresh b = a := by
    intro a
    rw [hst2]
    unfold redirectUses
    rw [List.mem_map]
    constructor
    · rintro ⟨b, hb, hab⟩
      exact ⟨b, mem_insertAt.mp hb, hab⟩
    · rintro ⟨b, hb, hab⟩
      exact ⟨b, mem_insertAt.mpr hb, hab⟩
  have hresolves2 : ∀ b ∈ st.ir, ∀ u ∈ b.operands, resolves st2.ir u = true := by
    intro b hb u hu
    cases hu2 : u with
    | arg n => rfl
    | res i =>
      obtain ⟨d, hd⟩ := hclosed_res b hb u hu i hu2
      have hine : ¬ i = st.fresh := hres_ne_fresh b hb u hu i hu2
      simp only [resolves]
      rw [hfo2_ne i hine, hd]
      rfl
  refine ⟨⟨?_, ?_, ?_⟩, by omega, ?_, ?_, ?_, ?_⟩
  · -- idsNodup
    unfold idsNodup
    have hids : st2.ir.map (fun a => a.oid) =
        (insertAt st.ir (wrapperPos st.ir v) w).map fun a => a.oid := by
      rw [hst2]
      exact map_oid_redirectUses _ v st.fresh
    rw [hids]
    have hperm := (insertAt_perm st.ir (wrapperPos st.ir v) w).map fun a => a.oid
    rw [hperm.nodup_iff]
    simp only [List.map_cons, List.nodup_cons]
    refine ⟨?_, hnd⟩
    intro hmem
    obtain ⟨a, ha, hoa⟩ := List.mem_map.mp hmem
    exact hnotin a ha (by rw [hoa])
  · -- idBound
    intro a ha
    rw [hst2f]
    obtain ⟨b, hb, hab⟩ := (hmem2 a).mp ha
    have hoid : a.oid = b.oid := by rw [← hab, redirectOp_oid]
    rcases hb with rfl | hb
    · rw [hoid]
      show st.fresh < st.fresh + 1
      omega
    · have := hbd b hb
      omega
  · -- closedIR
    intro a ha u hu
    obtain ⟨b, hb, hab⟩ := (hmem2 a).mp ha
    rcases hb with rfl | hb
    · have hws : redirectOp v st.fresh w = w := redirectOp_self rfl
      rw [hws] at hab
      rw [← hab] at hu
      have huv : u = v := by
        simpa [hw] using hu
      subst huv
      exact hresolves2 o hof.1 u hvmem
    · have hbne : ¬ b.oid = st.fresh := hnotin b hb
      rw [redirectOp_of_ne hbne] at hab
      rw [← hab] at hu
      simp only [List.mem_map] at hu
      obtain ⟨u0, hu0, huu⟩ := hu
      by_cases hu0v : u0 == v
      · rw [if_pos hu0v] at huu
        subst huu
        simp only [resolves]
        rw [hfow]
        rfl
      · rw [if_neg hu0v] at huu
        subst huu
        exact hresolves2 b hb u0 hu0
  · -- kinds come from the old IR or are wrappers
    intro a ha
    obtain ⟨b, hb, hab⟩ := (hmem2 a).mp ha
    rcases hb with rfl | hb
    · left
      have hws : redirectOp v st.fresh w = w := redirectOp_self rfl
      rw [← hab, hws]
    · right
      exact ⟨b, hb, by rw [← hab, redirectOp_oid], by rw [← hab, redirectOp_kind]⟩
  · -- kind/arity of old ids preserved
    intro i hi
    rw [hfo2_ne i (by omega)]
    cases findOp st.ir i with
    | none => rfl
    | some d => simp [redirectOp_kind, redirectOp_operands_length]
  · -- slotGood preservation
    intro oid2 j2 hsg a hfa hka u hu hshu
    by_cases hi : oid2 = st.fresh
    · subst hi
      rw [hfow] at hfa
      have : w = a := by injection hfa
      rw [← this] at hka
      exact absurd rfl hka
    · rw [hfo2_ne oid2 hi] at hfa
      obtain ⟨b, hb, hgb⟩ := Option.map_eq_some'.mp hfa
      have hbmem := findOp_some_mem hb
      have hbne : ¬ b.oid = st.fresh := hnotin b hbmem.1
      rw [redirectOp_of_ne hbne] at hgb
      have hkb : b.kind ≠ WKind.arrayOp := by
        rw [← hgb] at hka
        exact hka
      have hu2 : (b.operands.map fun u => if u == v then WValue.res st.fresh else u).get? j2 =
          some u := by
        rw [← hgb] at hu
        exact hu
      rw [List.get?_map] at hu2
      obtain ⟨u0, hu0, huu⟩ := Option.map_eq_some'.mp hu2
      have hu0mem : u0 ∈ b.operands := List.get?_mem hu0
      by_cases hu0v : u0 == v
      · rw [if_pos hu0v] at huu
        rw [← huu]
        exact ⟨st.fresh, w, rfl, hfow, Or.inl rfl⟩
      · rw [if_neg hu0v] at huu
        subst huu
        rw [hvalTy_pres b hbmem.1 u0 hu0mem] at hshu
        exact hwp_lift u0 (hsg b hb hkb u0 hu0 hshu)
  · -- the processed slot is wrapped
    intro a hfa hka u hu hshu
    rw [hfo2_ne opId (by omega), hfind] at hfa
    obtain ⟨b, hb, hgb⟩ := Option.map_eq_some'.mp hfa
    have hbo : b = o := by injection hb with hb2; exact hb2.symm
    subst hbo
    have hbne : ¬ b.oid = st.fresh := by
      rw [hof.2]
      omega
    rw [redirectOp_of_ne hbne] at hgb
    have hu2 : (b.operands.map fun u => if u == v then WValue.res st.fresh else u).get? j =
        some u := by
      rw [← hgb] at hu
      exact hu
    rw [List.get?_map, hget] at hu2
    simp only [Option.map_some'] at hu2
    have huv : u = WValue.res st.fresh := by
      have : (if (v == v) = true then WValue.res st.fresh else v) = u := by
        injection hu2 with h2
      rw [← this]
      simp
    rw [huv]
    exact ⟨st.fresh, w, rfl, hfow, Or.inl rfl⟩

theorem processOperand_findNone (argTy : ArgTys) (opId : Nat) (st : PassState) (j : Nat)
    (h : findOp st.ir opId = none) : processOperand argTy opId st j = st := by
  unfold processOperand
  rw [h]

theorem processOperand_getNone (argTy : ArgTys) (opId : Nat) (st : PassState) (j : Nat)
    (o : WOp) (h : findOp st.ir opId = some o) (hg : o.operands.get? j = none) :
    processOperand argTy opId st j = st := by
  unfold processOperand
  rw [h]
  show (match o.operands.get? j with
        | none => st
        | some v => applyWrap argTy st o v) = st
  rw [hg]

theorem processOperand_getSome (argTy : ArgTys) (opId : Nat) (st : PassState) (j : Nat)
    (o : WOp) (v : WValue) (h : findOp st.ir opId = some o)
    (hg : o.operands.get? j = some v) :
    processOperand argTy opId st j = applyWrap argTy st o v := by
  unfold processOperand
  rw [h]
  show (match o.operands.get? j with
        | none => st
        | some v => applyWrap argTy st o v) = applyWrap argTy st o v
  rw [hg]

theorem applyWrap_char (argTy : ArgTys) (st : PassState) (o : WOp) (v : WValue) :
    (applyWrap argTy st o v = st ∧ (valTy argTy st.ir v).shaped = false) ∨
    ((valTy argTy st.ir v).shaped = true ∧
      (applyWrap argTy st o v).ir = st.ir ∧ (applyWrap argTy st o v).fresh = st.fresh ∧
      (o.kind = WKind.arrayOp ∨ wrapperProduced st.ir v ∨
        ∃ i, v = WValue.res i ∧ findOp st.ir i = none)) ∨
    ((valTy argTy st.ir v).shaped = true ∧ o.kind ≠ WKind.arrayOp ∧
      ((∃ n, v = WValue.arg n) ∨ ∃ i d, v = WValue.res i ∧ findOp st.ir i = some d ∧
        ¬ (d.kind = WKind.arrayOp ∨ d.kind = WKind.assignOp)) ∧
      (applyWrap argTy st o v).ir =
        redirectUses (insertAt st.ir (wrapperPos st.ir v)
          ⟨st.fresh, WKind.arrayOp, [v], valTy argTy st.ir v⟩) v st.fresh ∧
      (applyWrap argTy st o v).fresh = st.fresh + 1) := by
  cases hty : (valTy argTy st.ir v).shaped with
  | false =>
    left
    refine ⟨?_, rfl⟩
    unfold applyWrap
    simp only [hty, Bool.false_eq_true, if_false]
  | true =>
    right
    have happ : applyWrap argTy st o v =
        (let dec := wrapDecision st (valTy argTy st.ir v) v
         let ins := if o.kind = WKind.arrayOp then false else dec.1
         let errs1 := st.errs + (if dec.2 then 1 else 0)
         if ins then
           (⟨redirectUses (insertAt st.ir (wrapperPos st.ir v)
              ⟨st.fresh, WKind.arrayOp, [v], valTy argTy st.ir v⟩) v st.fresh,
             st.fresh + 1, errs1⟩ : PassState)
         else ⟨st.ir, st.fresh, errs1⟩) := by
      unfold applyWrap
      simp only [hty, if_true]
    cases v with
    | arg n =>
      by_cases hk : o.kind = WKind.arrayOp
      · left
        refine ⟨rfl, ?_, ?_, Or.inl hk⟩ <;> rw [happ] <;> simp [wrapDecision, hk]
      · right
        refine ⟨rfl, hk, Or.inl ⟨n, rfl⟩, ?_, ?_⟩ <;> rw [happ] <;> simp [wrapDecision, hk]
    | res i =>
      cases hdef : findOp st.ir i with
      | none =>
        left
        refine ⟨rfl, ?_, ?_, Or.inr (Or.inr ⟨i, rfl, hdef⟩)⟩ <;>
          rw [happ] <;> simp [wrapDecision, hdef]
      | some d =>
        by_cases hdk : d.kind = WKind.arrayOp ∨ d.kind = WKind.assignOp
        · left
          refine ⟨rfl, ?_, ?_, Or.inr (Or.inl ⟨i, d, rfl, hdef, hdk⟩)⟩ <;>
            rw [happ] <;> simp [wrapDecision, hdef, hdk]
        · by_cases hk : o.kind = WKind.arrayOp
          · left
            refine ⟨rfl, ?_, ?_, Or.inl hk⟩ <;>
              rw [happ] <;> simp [wrapDecision, hdef, hdk, hk]
          · right
            refine ⟨rfl, hk, Or.inr ⟨i, d, rfl, hdef, hdk⟩, ?_, ?_⟩ <;>
              rw [happ] <;> simp [wrapDecision, hdef, hdk, hk]

theorem processOperand_char (argTy : ArgTys) (opId : Nat) (st : PassState) (j : Nat) :
    (processOperand argTy opId st j = st ∧
      (findOp st.ir opId = none ∨
       (∃ o, findOp st.ir opId = some o ∧ o.operands.get? j = none) ∨
       (∃ o v, findOp st.ir opId = some o ∧ o.operands.get? j = some v ∧
         (valTy argTy st.ir v).shaped = false))) ∨
    (∃ o v, findOp st.ir opId = some o ∧ o.operands.get? j = some v ∧
      (valTy argTy st.ir v).shaped = true ∧
      (processOperand argTy opId st j).ir = st.ir ∧
      (processOperand argTy opId st j).fresh = st.fresh ∧
      (o.kind = WKind.arrayOp ∨ wrapperProduced st.ir v ∨
        ∃ i, v = WValue.res i ∧ findOp st.ir i = none)) ∨
    (∃ o v, findOp st.ir opId = some o ∧ o.operands.get? j = some v ∧
      (valTy argTy st.ir v).shaped = true ∧ o.kind ≠ WKind.arrayOp ∧
      ((∃ n, v = WValue.arg n) ∨ ∃ i d, v = WValue.res i ∧ findOp st.ir i = some d ∧
        ¬ (d.kind = WKind.arrayOp ∨ d.kind = WKind.assignOp)) ∧
      (processOperand argTy opId st j).ir =
        redirectUses (insertAt st.ir (wrapperPos st.ir v)
          ⟨st.fresh, WKind.arrayOp, [v], valTy argTy st.ir v⟩) v st.fresh ∧
      (processOperand argTy opId st j).fresh = st.fresh + 1) := by
  cases hfind : findOp st.ir opId with
  | none => exact Or.inl ⟨processOperand_findNone argTy opId st j hfind, Or.inl rfl⟩
  | some o =>
    cases hget : o.operands.get? j with
    | none => exact Or.inl ⟨processOperand_getNone argTy opId st j o hfind hget,
        Or.inr (Or.inl ⟨o, rfl, hget⟩)⟩
    | some v =>
      have heq := processOperand_getSome argTy opId st j o v hfind hget
      rcases applyWrap_char argTy st o v with ⟨h1, hsf⟩ | ⟨hty, h1, h2, h3⟩ |
        ⟨hty, hk, hdec, h1, h2⟩
      · exact Or.inl ⟨heq.trans h1, Or.inr (Or.inr ⟨o, v, rfl, hget, hsf⟩)⟩
      · exact Or.inr (Or.inl ⟨o, v, rfl, hget, hty,
          by rw [heq]; exact h1, by rw [heq]; exact h2, h3⟩)
      · exact Or.inr (Or.inr ⟨o, v, rfl, hget, hty, hk, hdec,
          by rw [heq]; exact h1, by rw [heq]; exact h2⟩)

theorem sameIr_facts (argTy : ArgTys) (st st2 : PassState) (hwf : WFState st)
    (hir : st2.ir = st.ir) (hfr : st2.fresh = st.fresh) :
    WFState st2 ∧ st.fresh ≤ st2.fresh ∧
    (∀ a ∈ st2.ir, a.kind = WKind.arrayOp ∨
      ∃ o0, o0 ∈ st.ir ∧ o0.oid = a.oid ∧ o0.kind = a.kind) ∧
    (∀ i, i < st.fresh →
      (findOp st2.ir i).map (fun a => (a.kind, a.operands.length)) =
        (findOp st.ir i).map fun a => (a.kind, a.operands.length)) ∧
    (∀ oid2 j2, slotGood argTy st.ir oid2 j2 → slotGood argTy st2.ir oid2 j2) := by
  obtain ⟨hnd, hbd, hcl⟩ := hwf
  refine ⟨⟨?_, ?_, ?_⟩, by omega, ?_, ?_, ?_⟩
  · unfold idsNodup
    rw [hir]
    exact hnd
  · intro a ha
    rw [hfr]
    rw [hir] at ha
    exact hbd a ha
  · intro a ha u hu
    rw [hir] at ha ⊢
    exact hcl a ha u hu
  · intro a ha
    rw [hir] at ha
    exact Or.inr ⟨a, ha, rfl, rfl⟩
  · intro i _
    rw [hir]
  · intro oid2 j2 hsg
    unfold slotGood
    rw [hir]
    exact hsg

theorem processOperand_facts (argTy : ArgTys) (opId : Nat) (st : PassState) (j : Nat)
    (hwf : WFState st) :
    WFState (processOperand argTy opId st j) ∧
    st.fresh ≤ (processOperand argTy opId st j).fresh ∧
    (∀ a ∈ (processOperand argTy opId st j).ir, a.kind = WKind.arrayOp ∨
      ∃ o0, o0 ∈ st.ir ∧ o0.oid = a.oid ∧ o0.kind = a.kind) ∧
    (∀ i, i < st.fresh →
      (findOp (processOperand argTy opId st j).ir i).map
        (fun a => (a.kind, a.operands.length)) =
        (findOp st.ir i).map fun a => (a.kind, a.operands.length)) ∧
    (∀ oid2 j2, slotGood argTy st.ir oid2 j2 →
      slotGood argTy (processOperand argTy opId st j).ir oid2 j2) ∧
    slotGood argTy (processOperand argTy opId st j).ir opId j := by
  rcases processOperand_char argTy opId st j with
    ⟨heq, hreason⟩ | ⟨o, v, hfind, hget, hty, hir, hfr, hcase⟩ |
    ⟨o, v, hfind, hget, hty, hk, hdec, hir, hfr⟩
  · obtain ⟨c1, c2, c3, c4, c5⟩ := sameIr_facts argTy st (processOperand argTy opId st j) hwf
      (by rw [heq]) (by rw [heq])
    refine ⟨c1, c2, c3, c4, c5, ?_⟩
    intro o2 hfo2 hk2 v2 hv2 hsh2
    rw [heq] at hfo2
    rcases hreason with hr | ⟨o, hfo, hg⟩ | ⟨o, v, hfo, hg, hsf⟩
    · rw [hr] at hfo2
      exact absurd hfo2 (by simp)
    · rw [hfo] at hfo2
      have ho2 : o = o2 := by injection hfo2
      rw [← ho2] at hv2
      rw [hg] at hv2
      exact absurd hv2 (by simp)
    · rw [hfo] at hfo2
      have ho2 : o = o2 := by injection hfo2
      rw [← ho2] at hv2
      rw [hg] at hv2
      have hvv : v = v2 := by injection hv2
      rw [heq, ← hvv] at hsh2
      rw [hsf] at hsh2
      exact absurd hsh2 (by simp)
  · obtain ⟨c1, c2, c3, c4, c5⟩ := sameIr_facts argTy st (processOperand argTy opId st j)
      hwf hir hfr
    refine ⟨c1, c2, c3, c4, c5, ?_⟩
    intro o2 hfo2 hk2 v2 hv2 hsh2
    rw [hir] at hfo2 ⊢
    rw [hfind] at hfo2
    have ho2 : o = o2 := by injection hfo2
    rw [← ho2] at hv2 hk2
    rw [hget] at hv2
    have hvv : v = v2 := by injection hv2
    rw [← hvv]
    rcases hcase with hka | hwp | ⟨i, hvi, hnone⟩
    · exact absurd hka hk2
    · exact hwp
    · have hom := findOp_some_mem hfind
      have hcl := hwf.2.2
      have := hcl o hom.1 v (List.get?_mem hget)
      rw [hvi] at this
      simp only [resolves] at this
      rw [hnone] at this
      exact absurd this (by simp)
  · exact wrapStep_facts argTy st opId o v j hwf hfind hget
      (processOperand argTy opId st j) hir hfr

theorem foldl_processOperand_facts (argTy : ArgTys) (opId : Nat) (js : List Nat) :
    ∀ st : PassState, WFState st →
    WFState (js.foldl (processOperand argTy opId) st) ∧
    st.fresh ≤ (js.foldl (processOperand argTy opId) st).fresh ∧
    (∀ a ∈ (js.foldl (processOperand argTy opId) st).ir, a.kind = WKind.arrayOp ∨
      ∃ o0, o0 ∈ st.ir ∧ o0.oid = a.oid ∧ o0.kind = a.kind) ∧
    (∀ i, i < st.fresh →
      (findOp (js.foldl (processOperand argTy opId) st).ir i).map
        (fun a => (a.kind, a.operands.length)) =
        (findOp st.ir i).map fun a => (a.kind, a.operands.length)) ∧
    (∀ oid2 j2, slotGood argTy st.ir oid2 j2 →
      slotGood argTy (js.foldl (processOperand argTy opId) st).ir oid2 j2) ∧
    (∀ j ∈ js, slotGood argTy (js.foldl (processOperand argTy opId) st).ir opId j) := by
  induction js with
  | nil =>
    intro st hwf
    exact ⟨hwf, Nat.le_refl _, fun a ha => Or.inr ⟨a, ha, rfl, rfl⟩,
      fun i _ => rfl, fun _ _ h => h, by simp⟩
  | cons j js ih =>
    intro st hwf
    obtain ⟨f1, f2, f3, f4, f5, f6⟩ := processOperand_facts argTy opId st j hwf
    obtain ⟨g1, g2, g3, g4, g5, g6⟩ := ih (processOperand argTy opId st j) f1
    simp only [List.foldl_cons]
    refine ⟨g1, by omega, ?_, ?_, ?_, ?_⟩
    · intro a ha
      rcases g3 a ha with hk | ⟨o1, ho1, hoid1, hkind1⟩
      · exact Or.inl hk
      · rcases f3 o1 ho1 with hk1 | ⟨o0, ho0, hoid0, hkind0⟩
        · exact Or.inl (by rw [← hkind1, hk1])
        · exact Or.inr ⟨o0, ho0, hoid0.trans hoid1, hkind0.trans hkind1⟩
    · intro i hi
      rw [g4 i (by omega), f4 i hi]
    · intro oid2 j2 hsg
      exact g5 oid2 j2 (f5 oid2 j2 hsg)
    · intro j2 hj2
      rcases List.mem_cons.mp hj2 with rfl | hj2
      · exact g5 opId j2 f6
      · exact g6 j2 hj2

theorem processOp_facts (argTy : ArgTys) (st : PassState) (opId : Nat) (hwf : WFState st) :
    WFState (processOp argTy st opId) ∧
    st.fresh ≤ (processOp argTy st opId).fresh ∧
    (∀ a ∈ (processOp argTy st opId).ir, a.kind = WKind.arrayOp ∨
      ∃ o0, o0 ∈ st.ir ∧ o0.oid = a.oid ∧ o0.kind = a.kind) ∧
    (∀ i, i < st.fresh →
      (findOp (processOp argTy st opId).ir i).map (fun a => (a.kind, a.operands.length)) =
        (findOp st.ir i).map fun a => (a.kind, a.operands.length)) ∧
    (∀ oid2 j2, slotGood argTy st.ir oid2 j2 →
      slotGood argTy (processOp argTy st opId).ir oid2 j2) ∧
    (∀ o, findOp st.ir opId = some o → ∀ j, j < o.operands.length →
      slotGood argTy (processOp argTy st opId).ir opId j) := by
  unfold processOp
  cases hfind : findOp st.ir opId with
  | none =>
    refine ⟨hwf, Nat.le_refl _, fun a ha => Or.inr ⟨a, ha, rfl, rfl⟩,
      fun i _ => rfl, fun _ _ h => h, ?_⟩
    intro o ho
    exact absurd ho (by simp)
  | some o =>
    obtain ⟨f1, f2, f3, f4, f5, f6⟩ :=
      foldl_processOperand_facts argTy opId (List.range o.operands.length) st hwf
    refine ⟨f1, f2, f3, f4, f5, ?_⟩
    intro o2 ho2 j hj
    have hoo : o = o2 := by injection ho2
    rw [← hoo] at hj
    exact f6 j (List.mem_range.mpr hj)

theorem foldl_processOp_facts (argTy : ArgTys) (ids : List Nat) :
    ∀ st : PassState, WFState st → (∀ i ∈ ids, i < st.fresh) →
    WFState (ids.foldl (processOp argTy) st) ∧
    st.fresh ≤ (ids.foldl (processOp argTy) st).fresh ∧
    (∀ a ∈ (ids.foldl (processOp argTy) st).ir, a.kind = WKind.arrayOp ∨
      ∃ o0, o0 ∈ st.ir ∧ o0.oid = a.oid ∧ o0.kind = a.kind) ∧
    (∀ i, i < st.fresh →
      (findOp (ids.foldl (processOp argTy) st).ir i).map
        (fun a => (a.kind, a.operands.length)) =
        (findOp st.ir i).map fun a => (a.kind, a.operands.length)) ∧
    (∀ oid2 j2, slotGood argTy st.ir oid2 j2 →
      slotGood argTy (ids.foldl (processOp argTy) st).ir oid2 j2) ∧
    (∀ opId ∈ ids, ∀ o, findOp st.ir opId = some o → ∀ j, j < o.operands.length →
      slotGood argTy (ids.foldl (processOp argTy) st).ir opId j) := by
  induction ids with
  | nil =>
    intro st hwf _
    exact ⟨hwf, Nat.le_refl _, fun a ha => Or.inr ⟨a, ha, rfl, rfl⟩,
      fun i _ => rfl, fun _ _ h => h, by simp⟩
  | cons opId ids ih =>
    intro st hwf hlt
    obtain ⟨f1, f2, f3, f4, f5, f6⟩ := processOp_facts argTy st opId hwf
    obtain ⟨g1, g2, g3, g4, g5, g6⟩ := ih (processOp argTy st opId) f1
      (fun i hi => by have := hlt i (List.mem_cons_of_mem opId hi); omega)
    simp only [List.foldl_cons]
    refine ⟨g1, by omega, ?_, ?_, ?_, ?_⟩
    · intro a ha
      rcases g3 a ha with hk | ⟨o1, ho1, hoid1, hkind1⟩
      · exact Or.inl hk
      · rcases f3 o1 ho1 with hk1 | ⟨o0, ho0, hoid0, hkind0⟩
        · exact Or.inl (by rw [← hkind1, hk1])
        · exact Or.inr ⟨o0, ho0, hoid0.trans hoid1, hkind0.trans hkind1⟩
    · intro i hi
      rw [g4 i (by omega), f4 i hi]
    · intro oid2 j2 hsg
      exact g5 oid2 j2 (f5 oid2 j2 hsg)
    · intro opId2 hmem o2 ho2 j hj
      rcases List.mem_cons.mp hmem with rfl | hmem
      · exact g5 opId2 j (f6 o2 ho2 j hj)
      · have hlt2 : opId2 < st.fresh := hlt opId2 (List.mem_cons_of_mem opId hmem)
        have hpres := f4 opId2 hlt2
        rw [ho2] at hpres
        cases hfo1 : findOp (processOp argTy st opId).ir opId2 with
        | none =>
          rw [hfo1] at hpres
          exact absurd hpres (by simp)
        | some o1 =>
          rw [hfo1] at hpres
          simp only [Option.map_some', Option.some.injEq, Prod.mk.injEq] at hpres
          exact g6 opId2 hmem o1 hfo1 j (by omega)

theorem findOp_of_mem_nodup {ir : WIR} {a : WOp} (hnd : idsNodup ir) (ha : a ∈ ir) :
    findOp ir a.oid = some a := by
  induction ir with
  | nil => simp at ha
  | cons b rest ih =>
    unfold idsNodup at hnd
    simp only [List.map_cons, List.nodup_cons] at hnd
    rcases List.mem_cons.mp ha with ha1 | ha2
    · subst ha1
      unfold findOp
      rw [List.find?_cons_of_pos]
      simp
    · unfold findOp
      rw [List.find?_cons_of_neg]
      · exact ih hnd.2 ha2
      · simp only [beq_iff_eq]
        intro hba
        exact hnd.1 (hba ▸ List.mem_map.mpr ⟨a, ha2, rfl⟩)

theorem convertWalk_facts (argTy : ArgTys) (st : PassState) (hwf : WFState st) :
    WFState (convertWalk argTy st) ∧ allWrapped argTy (convertWalk argTy st).ir := by
  unfold convertWalk
  obtain ⟨hnd, hbd, hcl⟩ := hwf
  obtain ⟨g1, g2, g3, g4, g5, g6⟩ :=
    foldl_processOp_facts argTy (st.ir.map fun o => o.oid) st ⟨hnd, hbd, hcl⟩
      (by intro i hi; obtain ⟨a, ha, rfl⟩ := List.mem_map.mp hi; exact hbd a ha)
  refine ⟨g1, ?_⟩
  intro a ha hka u hu hsh
  rcases g3 a ha with hk | ⟨o0, ho0, hoid0, hkind0⟩
  · exact absurd hk hka
  · have hmemids : a.oid ∈ st.ir.map fun o => o.oid := List.mem_map.mpr ⟨o0, ho0, hoid0⟩
    have hfo0 : findOp st.ir a.oid = some o0 := by
      have h := findOp_of_mem_nodup hnd ho0
      rw [hoid0] at h
      exact h
    obtain ⟨j, hj⟩ := List.get?_of_mem hu
    have hjlt : j < a.operands.length := by
      by_contra hge
      rw [List.get?_eq_none.mpr (by omega)] at hj
      exact absurd hj (by simp)
    have hfa : findOp ((st.ir.map fun o => o.oid).foldl (processOp argTy) st).ir a.oid =
        some a := findOp_of_mem_nodup g1.1 ha
    have hpres := g4 a.oid (by rw [← hoid0]; exact hbd o0 ho0)
    rw [hfa, hfo0] at hpres
    simp only [Option.map_some', Option.some.injEq, Prod.mk.injEq] at hpres
    exact g6 a.oid hmemids o0 hfo0 j (by omega) a hfa hka u hj hsh

theorem processOperand_ir_id (argTy : ArgTys) (opId : Nat) (st : PassState) (j : Nat)
    (hall : allWrapped argTy st.ir) : (processOperand argTy opId st j).ir = st.ir := by
  rcases processOperand_char argTy opId st j with ⟨heq, _⟩ | ⟨_, _, _, _, _, hir, _, _⟩ |
    ⟨o, v, hfind, hget, hty, hk, hdec, hir, hfr⟩
  · rw [heq]
  · assumption
  · exfalso
    have hom := findOp_some_mem hfind
    obtain ⟨i, d, hvres, hfd, hdk⟩ := hall o hom.1 hk v (List.get?_mem hget) hty
    rcases hdec with ⟨n, hva⟩ | ⟨i2, d2, hvi2, hfd2, hnk2⟩
    · rw [hva] at hvres
      exact absurd hvres (by simp)
    · have hii : i2 = i := by
        have h2 := hvi2.symm.trans hvres
        injection h2
      rw [hii, hfd] at hfd2
      have hdd : d = d2 := by injection hfd2
      rw [← hdd] at hnk2
      exact hnk2 hdk

theorem foldl_processOperand_ir_id (argTy : ArgTys) (opId : Nat) (js : List Nat) :
    ∀ st : PassState, allWrapped argTy st.ir →
    (js.foldl (processOperand argTy opId) st).ir = st.ir := by
  induction js with
  | nil => intro st _; rfl
  | cons j js ih =>
    intro st hall
    have h1 := processOperand_ir_id argTy opId st j hall
    have hall1 : allWrapped argTy (processOperand argTy opId st j).ir := by
      rw [h1]
      exact hall
    simp only [List.foldl_cons]
    rw [ih (processOperand argTy opId st j) hall1, h1]

theorem processOp_ir_id (argTy : ArgTys) (st : PassState) (opId : Nat)
    (hall : allWrapped argTy st.ir) : (processOp argTy st opId).ir = st.ir := by
  unfold processOp
  cases findOp st.ir opId with
  | none => rfl
  | some o => exact foldl_processOperand_ir_id argTy opId (List.range o.operands.length) st hall

theorem foldl_processOp_ir_id (argTy : ArgTys) (ids : List Nat) :
    ∀ st : PassState, allWrapped argTy st.ir →
    (ids.foldl (processOp argTy) st).ir = st.ir := by
  induction ids with
  | nil => intro st _; rfl
  | cons opId ids ih =>
    intro st hall
    have h1 := processOp_ir_id argTy st opId hall
    have hall1 : allWrapped argTy (processOp argTy st opId).ir := by
      rw [h1]
      exact hall
    simp only [List.foldl_cons]
    rw [ih (processOp argTy st opId) hall1, h1]

theorem convertWalk_ir_id (argTy : ArgTys) (st : PassState)
    (hall : allWrapped argTy st.ir) : (convertWalk argTy st).ir = st.ir := by
  unfold convertWalk
  exact foldl_processOp_ir_id argTy (st.ir.map fun o => o.oid) st hall

theorem loopBandIsFrozen_iff (b : BandState) :
    loopBandIsFrozen b = true ↔ ∀ s ∈ b, s = LoopState.FROZEN := by
  induction b with
  | nil => simp [loopBandIsFrozen]
  | cons s rest ih =>
    by_cases hs : s = LoopState.FROZEN <;> simp [loopBandIsFrozen, hs, ih]

theorem loopBandIsColdOrFrozen_iff (b : BandState) :
    loopBandIsColdOrFrozen b = true ↔ ∀ s ∈ b, s ≠ LoopState.HOT := by
  induction b with
  | nil => simp [loopBandIsColdOrFrozen]
  | cons s rest ih =>
    by_cases hs : s = LoopState.HOT <;> simp [loopBandIsColdOrFrozen, hs, ih]

theorem loopBandIsOneHot_iff (b : BandState) :
    loopBandIsOneHot b = true ↔ b.count LoopState.HOT = 1 := by
  unfold loopBandIsOneHot
  rw [hotNum_eq_count]
  by_cases h : b.count LoopState.HOT = 1 <;> simp [h]

theorem lookupName_cons_self (tbl : List (MValue × String)) (v : MValue) (n : String) :
    lookupName ⟨(v, n) :: tbl⟩ v = n := by
  have h : ((v, n) :: tbl).find? (fun e => e.1 == v) = some (v, n) :=
    List.find?_cons_of_pos _ (by simp)
  simp [lookupName, h]

/-! ## Claim theorems -/

/-- C1: for every loop with statically known trip count N and every factor
F with 1 ≤ F ≤ N, `tile` (as invoked through `applyLoopTilingStrategy`)
produces an outer loop of trip count ceil(N/F) (characterized both by the
ceiling-division formula and by the bracketing inequalities), an inner loop
of trip count at most F, and the tiled pair enumerates exactly the same N
iteration indices in the same relative order as the untiled loop; `tile`
fails when F ≤ 0 or the loop bound is not statically known.  (The tile
implementation is modelled from the spec; it is only declared in the
repository sources.) -/
theorem tile_correct :
    (∀ (n : Nat) (f : Int), 1 ≤ f → f ≤ (n : Int) →
      ∃ t, tile (some n) f = some t ∧
        t.outerTrip = (n + f.toNat - 1) / f.toNat ∧
        n ≤ t.outerTrip * f.toNat ∧ t.outerTrip * f.toNat < n + f.toNat ∧
        (∀ o, t.innerTrip o ≤ f.toNat) ∧
        t.enum = untiledEnum n) ∧
    (∀ (m : Option Nat) (f : Int), f ≤ 0 → tile m f = none) ∧
    ∀ f : Int, tile none f = none := by
  refine ⟨?_, ?_, ?_⟩
  · intro n f h1 h2
    have hf0 : ¬ f ≤ 0 := by omega
    have hfn : 1 ≤ f.toNat := by omega
    refine ⟨⟨n, f.toNat⟩, ?_, rfl, ?_, ?_, ?_, ?_⟩
    · simp [tile, hf0]
    · show n ≤ ((n + f.toNat - 1) / f.toNat) * f.toNat
      have hq := Nat.div_add_mod (n + f.toNat - 1) f.toNat
      have hmod : (n + f.toNat - 1) % f.toNat < f.toNat := Nat.mod_lt _ (by omega)
      have hcomm : ((n + f.toNat - 1) / f.toNat) * f.toNat =
          f.toNat * ((n + f.toNat - 1) / f.toNat) := Nat.mul_comm _ _
      omega
    · show ((n + f.toNat - 1) / f.toNat) * f.toNat < n + f.toNat
      have := Nat.div_mul_le_self (n + f.toNat - 1) f.toNat
      omega
    · intro o
      exact min_le_left _ _
    · exact tile_enum_eq n f.toNat hfn
  · intro m f hf
    cases m with
    | none => rfl
    | some n => simp [tile, hf]
  · intro f
    rfl

/-- Witness for C1 at N = 7, F = 3 (and failure cases F = -2, unknown bound). -/
theorem tile_correct_witness :
    (∃ t, tile (some 7) 3 = some t ∧
      t.outerTrip = (7 + (3 : Int).toNat - 1) / (3 : Int).toNat ∧
      7 ≤ t.outerTrip * (3 : Int).toNat ∧ t.outerTrip * (3 : Int).toNat < 7 + (3 : Int).toNat ∧
      (∀ o, t.innerTrip o ≤ (3 : Int).toNat) ∧
      t.enum = untiledEnum 7) ∧
    tile (some 5) (-2) = none ∧ tile none 4 = none ∧
    (TiledLoop.mk 7 3).enum = untiledEnum 7 :=
  ⟨tile_correct.1 7 3 (by decide) (by decide),
   tile_correct.2.1 (some 5) (-2) (by decide),
   tile_correct.2.2 4, by decide⟩

/-- C2: for every band-state vector, `loopBandIsFrozen` is true iff every
element is FROZEN, `loopBandIsColdOrFrozen` is true iff no element is HOT,
and `loopBandIsOneHot` is true iff exactly one element is HOT. -/
theorem bandState_predicates (bandState : BandState) :
    (loopBandIsFrozen bandState = true ↔ ∀ s ∈ bandState, s = LoopState.FROZEN) ∧
    (loopBandIsColdOrFrozen bandState = true ↔ ∀ s ∈ bandState, s ≠ LoopState.HOT) ∧
    (loopBandIsOneHot bandState = true ↔ bandState.count LoopState.HOT = 1) :=
  ⟨loopBandIsFrozen_iff bandState, loopBandIsColdOrFrozen_iff bandState,
   loopBandIsOneHot_iff bandState⟩

/-- C3 counterexample: `addAlias` (exactly as used by
`ModuleEmitter::emitTensorToMemref`) maps a second, distinct, non-constant
value to the same rendered name "val0" that `addName` assigned to the
first, so two distinct non-constant IR values are mapped to the same
rendered name in the value-name table, contrary to the claim. -/
theorem addAlias_shared_name_counterexample :
    addName emptyState (exVal 0) false = some ("val0", ⟨[(exVal 0, "val0")]⟩) ∧
    addAlias ⟨[(exVal 0, "val0")]⟩ (exVal 0) (exVal 1) =
      some ("val0", ⟨[(exVal 1, "val0"), (exVal 0, "val0")]⟩) ∧
    getName ⟨[(exVal 1, "val0"), (exVal 0, "val0")]⟩ (exVal 0) = "val0" ∧
    getName ⟨[(exVal 1, "val0"), (exVal 0, "val0")]⟩ (exVal 1) = "val0" ∧
    exVal 0 ≠ exVal 1 ∧ (exVal 0).const = none ∧ (exVal 1).const = none := by
  decide

/-- C3 (amended): during one emission run no two values named through
`addName` receive the same rendered name; `addAlias` deliberately inserts
a second table entry mapping the alias to its target's existing name (so
an aliased pair shares one rendered name); and `emitValue` enters an
undeclared value into the name table at the moment of its first textual
rendering, rendering exactly the name under which the value was entered
(so every value is named no later than its first textual use). -/
theorem nameTable_uniqueness_alias_and_first_use :
    (∀ (evs : List NameEvent) (s sf : EmitterState) (ds : List (MValue × String)),
      runEvents s evs = some (sf, ds) → List.Pairwise (fun a b => a.2 ≠ b.2) ds) ∧
    (∀ (s : EmitterState) (v al : MValue) (n : String) (s1 : EmitterState),
      addAlias s v al = some (n, s1) →
      n = getName s v ∧ isDeclared s v = true ∧ lookupName s1 al = n) ∧
    (∀ (s : EmitterState) (v : MValue) (rank : Nat) (isPtr : Bool)
      (txt : String) (s1 : EmitterState) (err : Bool),
      emitValue s v rank isPtr = some (txt, s1, err) →
      (isDeclared s v = true → s1 = s ∧ txt = getName s v ++ idxSubscripts rank) ∧
      (v.const = none → isDeclared s v = false →
        lookupName s1 v = renderName isPtr s.nameTable.length ∧
        (txt = renderName isPtr s.nameTable.length ++ idxSubscripts rank ∨
         ∃ tyText, scalarTypeText v.ty.elem = some tyText ∧
           txt = tyText ++ renderName isPtr s.nameTable.length ++ idxSubscripts rank))) := by
  refine ⟨?_, ?_, ?_⟩
  · intro evs s sf ds h
    exact (runEvents_spec evs s sf ds h).2.2
  · intro s v al n s1 h
    obtain ⟨hn, htab, _, hv⟩ := addAlias_some h
    refine ⟨hn, hv, ?_⟩
    cases s1 with
    | mk t =>
      have ht : t = (al, n) :: s.nameTable := htab
      subst ht
      exact lookupName_cons_self s.nameTable al n
  · intro s v rank isPtr txt s1 err h
    constructor
    · intro hd
      unfold emitValue at h
      by_cases hra : rank ≠ 0 ∧ isPtr = true
      · simp [hra] at h
      · simp only [if_neg hra, hd, if_true] at h
        simp only [Option.some.injEq, Prod.mk.injEq] at h
        exact ⟨h.2.1.symm, h.1.symm⟩
    · intro hc hd
      unfold emitValue at h
      by_cases hra : rank ≠ 0 ∧ isPtr = true
      · simp [hra] at h
      · simp only [if_neg hra, hd, Bool.false_eq_true, if_false] at h
        have haddeq : addName s v isPtr = some (renderName isPtr s.nameTable.length,
            ⟨(v, renderName isPtr s.nameTable.length) :: s.nameTable⟩) := by
          simp [addName, hd]
        rw [haddeq] at h
        dsimp only at h
        have hlook : ∀ s2 : EmitterState,
            s2 = ⟨(v, renderName isPtr s.nameTable.length) :: s.nameTable⟩ →
            lookupName s2 v = renderName isPtr s.nameTable.length := by
          intro s2 hs2
          rw [hs2]
          exact lookupName_cons_self s.nameTable v _
        cases hsc : scalarTypeText v.ty.elem with
        | none =>
          rw [hsc] at h
          simp only [Option.some.injEq, Prod.mk.injEq] at h
          exact ⟨hlook s1 h.2.1.symm, Or.inl h.1.symm⟩
        | some tyText =>
          rw [hsc] at h
          simp only [Option.some.injEq, Prod.mk.injEq] at h
          exact ⟨hlook s1 h.2.1.symm, Or.inr ⟨tyText, rfl, h.1.symm⟩⟩

/-- Witness for C3: a concrete run (name, alias, name), a concrete alias
insertion, and a concrete first rendering through `emitValue`. -/
theorem nameTable_uniqueness_witness :
    List.Pairwise (fun a b : MValue × String => a.2 ≠ b.2)
      [(exVal 0, "val0"), (exVal 2, "val2")] ∧
    ("val0" = getName ⟨[(exVal 0, "val0")]⟩ (exVal 0) ∧
      isDeclared ⟨[(exVal 0, "val0")]⟩ (exVal 0) = true ∧
      lookupName ⟨[(exVal 1, "val0"), (exVal 0, "val0")]⟩ (exVal 1) = "val0") ∧
    ((isDeclared emptyState (exVal 3) = true →
        (⟨[(exVal 3, "val0")]⟩ : EmitterState) = emptyState ∧
        "float val0" = getName emptyState (exVal 3) ++ idxSubscripts 0) ∧
      ((exVal 3).const = none → isDeclared emptyState (exVal 3) = false →
        lookupName ⟨[(exVal 3, "val0")]⟩ (exVal 3) =
          renderName false emptyState.nameTable.length ∧
        ("float val0" = renderName false emptyState.nameTable.length ++ idxSubscripts 0 ∨
         ∃ tyText, scalarTypeText (exVal 3).ty.elem = some tyText ∧
           "float val0" = tyText ++ renderName false emptyState.nameTable.length ++
             idxSubscripts 0))) :=
  ⟨nameTable_uniqueness_alias_and_first_use.1
      [NameEvent.nameOp (exVal 0) false, NameEvent.aliasOp (exVal 0) (exVal 1),
       NameEvent.nameOp (exVal 2) false] emptyState
      ⟨[(exVal 2, "val2"), (exVal 1, "val0"), (exVal 0, "val0")]⟩
      [(exVal 0, "val0"), (exVal 2, "val2")] (by decide),
   nameTable_uniqueness_alias_and_first_use.2.1 ⟨[(exVal 0, "val0")]⟩ (exVal 0) (exVal 1)
      "val0" ⟨[(exVal 1, "val0"), (exVal 0, "val0")]⟩ (by decide),
   nameTable_uniqueness_alias_and_first_use.2.2 emptyState (exVal 3) 0 false
      "float val0" ⟨[(exVal 3, "val0")]⟩ false (by decide)⟩

/-- C4 counterexample: `addName` with the pointer flag stores and returns
the name "*val0", not the bare "val0" that "named valN with N the
monotonic declaration count" predicts for the first declaration. -/
theorem addName_pointer_prefix_counterexample :
    addName emptyState (exVal 0) true = some ("*val0", ⟨[(exVal 0, "*val0")]⟩) ∧
    "*val0" ≠ "val0" := by
  decide

/-- C4 (amended): scalar constants render as literals — integer and
boolean constants as their decimal value, finite float constants as the
finite numeric literal, non-finite float constants as INFINITY when
positive and -INFINITY otherwise — and every other value named through
`addName` receives the name valN with N the monotonically growing table
size, prefixed with `*` when the value is declared as a pointer. -/
theorem getName_literals_and_addName_rendering :
    (∀ (s : EmitterState) (v : MValue) (z : Int),
      v.const = some (CAttr.intA z) → getName s v = intDecimalString z) ∧
    (∀ (s : EmitterState) (v : MValue) (b : Bool),
      v.const = some (CAttr.boolA b) →
      getName s v = decimalString (if b then 1 else 0)) ∧
    (∀ (s : EmitterState) (v : MValue) (q : Rat),
      v.const = some (CAttr.floatA (MDouble.finite q)) →
      getName s v = floatFiniteLit (MDouble.finite q)) ∧
    (∀ (s : EmitterState) (v : MValue) (d : MDouble),
      v.const = some (CAttr.floatA d) → d.isfinite = false → d.gtZero = true →
      getName s v = "INFINITY") ∧
    (∀ (s : EmitterState) (v : MValue) (d : MDouble),
      v.const = some (CAttr.floatA d) → d.isfinite = false → d.gtZero = false →
      getName s v = "-INFINITY") ∧
    (∀ (s : EmitterState) (v : MValue) (p : Bool) (n : String) (s1 : EmitterState),
      addName s v p = some (n, s1) →
      n = renderName p s.nameTable.length ∧
      s1.nameTable.length = s.nameTable.length + 1) := by
  refine ⟨?_, ?_, ?_, ?_, ?_, ?_⟩
  · intro s v z hc
    simp [getName, hc, constLiteral]
  · intro s v b hc
    simp [getName, hc, constLiteral]
  · intro s v q hc
    simp [getName, hc, constLiteral, floatConstText, MDouble.isfinite]
  · intro s v d hc hf hg
    simp [getName, hc, constLiteral, floatConstText, hf, hg]
  · intro s v d hc hf hg
    simp [getName, hc, constLiteral, floatConstText, hf, hg]
  · intro s v p n s1 h
    obtain ⟨hn, htab, _⟩ := addName_some h
    refine ⟨hn, ?_⟩
    rw [htab]
    rfl

/-- Witness for C4 at concrete constants and a concrete declaration. -/
theorem getName_literals_witness :
    getName emptyState (exConst (CAttr.intA (-42))) = intDecimalString (-42) ∧
    getName emptyState (exConst (CAttr.boolA true)) = decimalString (if true then 1 else 0) ∧
    getName emptyState (exConst (CAttr.floatA (MDouble.finite (1 / 2)))) =
      floatFiniteLit (MDouble.finite (1 / 2)) ∧
    getName emptyState (exConst (CAttr.floatA MDouble.posInf)) = "INFINITY" ∧
    getName emptyState (exConst (CAttr.floatA MDouble.negInf)) = "-INFINITY" ∧
    ("val0" = renderName false emptyState.nameTable.length ∧
      (⟨[(exVal 0, "val0")]⟩ : EmitterState).nameTable.length =
        emptyState.nameTable.length + 1) :=
  ⟨getName_literals_and_addName_rendering.1 emptyState (exConst (CAttr.intA (-42))) (-42) rfl,
   getName_literals_and_addName_rendering.2.1 emptyState (exConst (CAttr.boolA true)) true rfl,
   getName_literals_and_addName_rendering.2.2.1 emptyState
     (exConst (CAttr.floatA (MDouble.finite (1 / 2)))) (1 / 2) rfl,
   getName_literals_and_addName_rendering.2.2.2.1 emptyState
     (exConst (CAttr.floatA MDouble.posInf)) MDouble.posInf rfl rfl rfl,
   getName_literals_and_addName_rendering.2.2.2.2.1 emptyState
     (exConst (CAttr.floatA MDouble.negInf)) MDouble.negInf rfl rfl rfl,
   getName_literals_and_addName_rendering.2.2.2.2.2 emptyState (exVal 0) false "val0"
     ⟨[(exVal 0, "val0")]⟩ (by decide)⟩

/-- C9: every scalar float constant whose value is NaN renders as the
literal "-INFINITY" (the non-finite branch tests only `value > 0`, false
for NaN) — both through `getName` and in dense-array initializers — and a
non-finite float renders only as one of the INFINITY sentinels, so no NaN
literal is ever emitted. -/
theorem nan_renders_minus_infinity :
    (∀ (s : EmitterState) (v : MValue),
      v.const = some (CAttr.floatA MDouble.nan) → getName s v = "-INFINITY") ∧
    denseFloatElemText MDouble.nan = "-INFINITY" ∧
    (∀ d : MDouble, d.isfinite = false →
      floatConstText d = "INFINITY" ∨ floatConstText d = "-INFINITY") ∧
    (∀ d : MDouble, d.isfinite = false →
      denseFloatElemText d = "INFINITY" ∨ denseFloatElemText d = "-INFINITY") := by
  refine ⟨?_, rfl, ?_, ?_⟩
  · intro s v hc
    simp [getName, hc, constLiteral, floatConstText, MDouble.isfinite, MDouble.gtZero]
  · intro d hf
    cases d with
    | finite q => simp [MDouble.isfinite] at hf
    | posInf => exact Or.inl rfl
    | negInf => exact Or.inr rfl
    | nan => exact Or.inr rfl
  · intro d hf
    cases d with
    | finite q => simp [MDouble.isfinite] at hf
    | posInf => exact Or.inl rfl
    | negInf => exact Or.inr rfl
    | nan => exact Or.inr rfl

/-- Witness for C9 at a concrete NaN constant. -/
theorem nan_renders_minus_infinity_witness :
    getName emptyState (exConst (CAttr.floatA MDouble.nan)) = "-INFINITY" ∧
    (floatConstText MDouble.nan = "INFINITY" ∨ floatConstText MDouble.nan = "-INFINITY") :=
  ⟨nan_renders_minus_infinity.1 emptyState (exConst (CAttr.floatA MDouble.nan)) rfl,
   nan_renders_minus_infinity.2.2.1 MDouble.nan rfl⟩

/-- C5: an emitted counted loop (affine or scf) whose pipeline attribute is
set to a truthy value writes the `#pragma HLS pipeline II=<target_ii>`
line, carrying the loop's `target_ii` attribute value, immediately inside
the loop body — directly after the opening-brace line and before any body
statement; a loop whose pipeline attribute is unset or false emits no such
pragma line of its own. -/
theorem pipeline_pragma_placement :
    (∀ (ind : Nat) (header : String) (attrs : LoopAttrs) (body : List String) (v : Int),
      attrs.pipeline = some v → v ≠ 0 →
      emitAffineFor ind header attrs body =
        (indentText ind ++ "for (" ++ header ++ ") \x7b") ::
        (indentText (ind + 2) ++ "#pragma HLS pipeline II=" ++
          intDecimalString (getIntAttrValue attrs.target_ii)) ::
        (body ++ [indentText ind ++ "\x7d"]) ∧
      emitScfFor ind header attrs body =
        (indentText ind ++ "for (" ++ header ++ ") \x7b") ::
        (indentText (ind + 2) ++ "#pragma HLS pipeline II=" ++
          intDecimalString (getIntAttrValue attrs.target_ii)) ::
        (body ++ [indentText ind ++ "\x7d"])) ∧
    (∀ (ind : Nat) (header : String) (attrs : LoopAttrs) (body : List String),
      attrs.pipeline = none ∨ attrs.pipeline = some 0 →
      emitAffineFor ind header attrs body =
        (indentText ind ++ "for (" ++ header ++ ") \x7b") ::
        (body ++ [indentText ind ++ "\x7d"]) ∧
      emitScfFor ind header attrs body =
        (indentText ind ++ "for (" ++ header ++ ") \x7b") ::
        (body ++ [indentText ind ++ "\x7d"])) := by
  constructor
  · intro ind header attrs body v hp hv
    constructor <;> simp [emitAffineFor, emitScfFor, getIntAttrValue, hp, hv]
  · intro ind header attrs body hp
    rcases hp with hp | hp <;> constructor <;>
      simp [emitAffineFor, emitScfFor, getIntAttrValue, hp]

/-- Witness for C5 at a concrete pipelined loop (II = 3) and a concrete
non-pipelined loop. -/
theorem pipeline_pragma_witness :
    (emitAffineFor 2 "H" ⟨some 1, some 3⟩ ["B"] =
        (indentText 2 ++ "for (" ++ "H" ++ ") \x7b") ::
        (indentText 4 ++ "#pragma HLS pipeline II=" ++
          intDecimalString (getIntAttrValue (some 3))) ::
        (["B"] ++ [indentText 2 ++ "\x7d"]) ∧
      emitScfFor 2 "H" ⟨some 1, some 3⟩ ["B"] =
        (indentText 2 ++ "for (" ++ "H" ++ ") \x7b") ::
        (indentText 4 ++ "#pragma HLS pipeline II=" ++
          intDecimalString (getIntAttrValue (some 3))) ::
        (["B"] ++ [indentText 2 ++ "\x7d"])) ∧
    (emitAffineFor 2 "H" ⟨some 0, some 3⟩ ["B"] =
        (indentText 2 ++ "for (" ++ "H" ++ ") \x7b") ::
        (["B"] ++ [indentText 2 ++ "\x7d"]) ∧
      emitScfFor 2 "H" ⟨some 0, some 3⟩ ["B"] =
        (indentText 2 ++ "for (" ++ "H" ++ ") \x7b") ::
        (["B"] ++ [indentText 2 ++ "\x7d"])) :=
  ⟨pipeline_pragma_placement.1 2 "H" ⟨some 1, some 3⟩ ["B"] 1 rfl (by decide),
   pipeline_pragma_placement.2 2 "H" ⟨some 0, some 3⟩ ["B"] (Or.inr rfl)⟩

/-- C6 counterexample: `AffineVectorLoadOp` is declined by all three
dispatchers (expression, statement, hardware-IP), yet `emitBlock` does not
record the "can't be correctly emitted." diagnostic and continue: the
HLSKernel visitor's `TypeSwitch` default runs `visitInvalidOp`, which
aborts the process, leaving the sibling operation unprocessed and the
emitter's failure flag unset. -/
theorem emitBlock_abort_counterexample :
    exprDispatch OpKind.affineVectorLoad = false ∧
    stmtDispatch OpKind.affineVectorLoad = false ∧
    ipDispatch OpKind.affineVectorLoad = none ∧
    emitBlock [OpKind.affineVectorLoad, OpKind.addF] =
      ⟨[], false, some OpKind.affineVectorLoad, [OpKind.addF]⟩ :=
  ⟨rfl, rfl, rfl, rfl⟩

/-- C6 (amended): an operation declined by the expression and statement
dispatchers splits into two behaviors: inside the HLSKernel dispatch
catalogue but without an IP emitter, `emitBlock` records the diagnostic
naming the operation, sets the failure flag, and continues over the
remaining siblings; outside that catalogue, `visitInvalidOp` reports the
operation and then aborts the process, leaving the remaining siblings
unprocessed and the failure flag unset. -/
theorem emitBlock_unhandled_behavior (k : OpKind) (rest : List OpKind)
    (he : exprDispatch k = false) (hs : stmtDispatch k = false) :
    (ipDispatch k = some false →
      emitBlock (k :: rest) = ⟨k :: (emitBlock rest).diagnosed, true,
        (emitBlock rest).abortedAt, (emitBlock rest).unprocessed⟩) ∧
    (ipDispatch k = none → emitBlock (k :: rest) = ⟨[], false, some k, rest⟩) := by
  have hd1 : dispatchOp k = (match ipDispatch k with
      | some true => StepOutcome.emitted
      | some false => StepOutcome.errorContinue
      | none => StepOutcome.abortRun) := by
    unfold dispatchOp
    simp [he, hs]
  constructor <;> intro hip
  · have hstep : dispatchOp k = StepOutcome.errorContinue := by rw [hd1, hip]
    show emitBlock (k :: rest) = _
    conv_lhs => unfold emitBlock
    rw [hstep]
  · have hstep : dispatchOp k = StepOutcome.abortRun := by rw [hd1, hip]
    show emitBlock (k :: rest) = _
    conv_lhs => unfold emitBlock
    rw [hstep]

/-- Witness for C6 at `DenseOp` (in the HLSKernel catalogue, no IP
emitter), with a concrete evaluation of the diagnose-and-continue run. -/
theorem emitBlock_unhandled_witness :
    ((ipDispatch OpKind.dense = some false →
        emitBlock [OpKind.dense, OpKind.addF] =
          ⟨OpKind.dense :: (emitBlock [OpKind.addF]).diagnosed, true,
            (emitBlock [OpKind.addF]).abortedAt, (emitBlock [OpKind.addF]).unprocessed⟩) ∧
      (ipDispatch OpKind.dense = none →
        emitBlock [OpKind.dense, OpKind.addF] =
          ⟨[], false, some OpKind.dense, [OpKind.addF]⟩)) ∧
    emitBlock [OpKind.dense, OpKind.addF] = ⟨[OpKind.dense], true, none, []⟩ :=
  ⟨emitBlock_unhandled_behavior OpKind.dense [OpKind.addF] rfl rfl, rfl⟩

/-- C7 counterexample: for a dynamic-shaped on-chip allocation, the emitter
reports the structural-violation error (failure flag true) but nonetheless
emits a declaration for that array — a raw-pointer declaration with no
per-dimension extents (no `[` occurs in the line) — contradicting "the
output contains no declaration of that array with indeterminate (missing
or dynamic) per-dimension extents". -/
theorem emitAlloc_dynamic_counterexample :
    emitAlloc emptyState dynVal =
      some (["float *val0;"], ⟨[(dynVal, "*val0")]⟩, true) ∧
    '[' ∉ "float *val0;".data := by
  constructor
  · decide
  · decide

/-- C7 (amended): for an undeclared allocation, a type without fully static
shape raises the structural-violation error and the declaration line is
emitted best-effort as the raw-pointer form of `emitValue` (no extents); a
static shape is declared with exactly one explicit extent per dimension
appended to the element declaration. -/
theorem emitAlloc_behavior (s : EmitterState) (v : MValue) (lines : List String)
    (s1 : EmitterState) (err : Bool) (h : emitAlloc s v = some (lines, s1, err))
    (hd : isDeclared s v = false) :
    (v.ty.hasStaticShape = false → err = true ∧
      ∃ txt s2 e2, emitValue s v 0 true = some (txt, s2, e2) ∧ lines = [txt ++ ";"]) ∧
    (v.ty.hasStaticShape = true →
      ∃ txt s2 e2, emitValue s v 0 false = some (txt, s2, e2) ∧
        lines = [txt ++ String.join (v.ty.dims.map fun d =>
          "[" ++ decimalString (d.getD 0) ++ "]") ++ ";"]) := by
  unfold emitAlloc at h
  simp only [hd, Bool.false_eq_true, if_false] at h
  constructor
  · intro hdyn
    have harr : emitArrayDecl s v = emitValue s v 0 true := by
      unfold emitArrayDecl
      simp [hd, hdyn]
    rw [harr] at h
    cases hev : emitValue s v 0 true with
    | none => rw [hev] at h; exact absurd h (by simp)
    | some trip =>
      obtain ⟨txt, s2, e2⟩ := trip
      rw [hev] at h
      dsimp only at h
      simp only [Option.some.injEq, Prod.mk.injEq] at h
      refine ⟨?_, txt, s2, e2, rfl, h.1.symm⟩
      rw [← h.2.2, hdyn]
      rfl
  · intro hstat
    have harr : emitArrayDecl s v =
        match emitValue s v 0 false with
        | none => none
        | some (txt, s2, e2) =>
          some (txt ++ String.join (v.ty.dims.map fun d =>
            "[" ++ decimalString (d.getD 0) ++ "]"), s2, e2) := by
      unfold emitArrayDecl
      simp [hd, hstat]
    rw [harr] at h
    cases hev : emitValue s v 0 false with
    | none => rw [hev] at h; exact absurd h (by simp)
    | some trip =>
      obtain ⟨txt, s2, e2⟩ := trip
      rw [hev] at h
      dsimp only at h
      simp only [Option.some.injEq, Prod.mk.injEq] at h
      exact ⟨txt, s2, e2, rfl, h.1.symm⟩

/-- Witness for C7 at a concrete dynamic allocation and a concrete fully
static 2×3 allocation. -/
theorem emitAlloc_behavior_witness :
    ((dynVal.ty.hasStaticShape = false → true = true ∧
        ∃ txt s2 e2, emitValue emptyState dynVal 0 true = some (txt, s2, e2) ∧
          ["float *val0;"] = [txt ++ ";"]) ∧
      (dynVal.ty.hasStaticShape = true →
        ∃ txt s2 e2, emitValue emptyState dynVal 0 false = some (txt, s2, e2) ∧
          ["float *val0;"] = [txt ++ String.join (dynVal.ty.dims.map fun d =>
            "[" ++ decimalString (d.getD 0) ++ "]") ++ ";"])) ∧
    ((statVal.ty.hasStaticShape = false → false = true ∧
        ∃ txt s2 e2, emitValue emptyState statVal 0 true = some (txt, s2, e2) ∧
          ["double val0[2][3];"] = [txt ++ ";"]) ∧
      (statVal.ty.hasStaticShape = true →
        ∃ txt s2 e2, emitValue emptyState statVal 0 false = some (txt, s2, e2) ∧
          ["double val0[2][3];"] = [txt ++ String.join (statVal.ty.dims.map fun d =>
            "[" ++ decimalString (d.getD 0) ++ "]") ++ ";"])) :=
  ⟨emitAlloc_behavior emptyState dynVal ["float *val0;"] ⟨[(dynVal, "*val0")]⟩ true
      (by decide) (by decide),
   emitAlloc_behavior emptyState statVal ["double val0[2][3];"] ⟨[(statVal, "val0")]⟩ false
      (by decide) (by decide)⟩

/-- C8: on a well-formed function body, after the annotator walk every
shaped-typed operand of every non-wrapper operation refers to a
wrapper-produced value (the inserted `ArrayOp` result, via
`replaceAllUsesExcept`), and a second run of the walk over the resulting
body changes nothing (idempotence). -/
theorem convertToHLSCpp_wraps_and_idempotent (argTy : ArgTys) (st : PassState)
    (hwf : WFState st) :
    allWrapped argTy (convertWalk argTy st).ir ∧
    ∀ st2 : PassState, st2.ir = (convertWalk argTy st).ir →
      (convertWalk argTy st2).ir = st2.ir := by
  obtain ⟨_, hall⟩ := convertWalk_facts argTy st hwf
  refine ⟨hall, fun st2 h2 => ?_⟩
  exact convertWalk_ir_id argTy st2 (h2 ▸ hall)

/-- Witness for C8 at a concrete two-operation body with a shaped block
argument and a shaped intermediate result. -/
theorem convertToHLSCpp_wraps_witness :
    WFState exSt ∧
    (allWrapped exArgTy (convertWalk exArgTy exSt).ir ∧
      ∀ st2 : PassState, st2.ir = (convertWalk exArgTy exSt).ir →
        (convertWalk exArgTy st2).ir = st2.ir) :=
  ⟨by unfold WFState idsNodup idBound closedIR; decide,
   convertToHLSCpp_wraps_and_idempotent exArgTy exSt
     (by unfold WFState idsNodup idBound closedIR; decide)⟩

/-- C10: the annotator pass unconditionally writes `dataflow = false` on
the function — overwriting any existing value, including `true` — while
each loop attribute (`pipeline`, `unroll`, `flatten`) and wrapper
attribute (`interface`, `storage`, `partition`) is preserved when present
and defaulted to `false` only when absent. -/
theorem annotator_attribute_defaults :
    (∀ a : FuncAttrs, (annotateFunc a).dataflow = some false) ∧
    (annotateFunc ⟨some true⟩).dataflow = some false ∧
    (∀ (a : ForAttrs) (b : Bool), a.pipeline = some b → (annotateFor a).pipeline = some b) ∧
    (∀ a : ForAttrs, a.pipeline = none → (annotateFor a).pipeline = some false) ∧
    (∀ (a : ForAttrs) (b : Bool), a.unroll = some b → (annotateFor a).unroll = some b) ∧
    (∀ a : ForAttrs, a.unroll = none → (annotateFor a).unroll = some false) ∧
    (∀ (a : ForAttrs) (b : Bool), a.flatten = some b → (annotateFor a).flatten = some b) ∧
    (∀ a : ForAttrs, a.flatten = none → (annotateFor a).flatten = some false) ∧
    (∀ (a : ArrayAttrs) (b : Bool), a.interface = some b → (annotateArray a).interface = some b) ∧
    (∀ a : ArrayAttrs, a.interface = none → (annotateArray a).interface = some false) ∧
    (∀ (a : ArrayAttrs) (b : Bool), a.storage = some b → (annotateArray a).storage = some b) ∧
    (∀ a : ArrayAttrs, a.storage = none → (annotateArray a).storage = some false) ∧
    (∀ (a : ArrayAttrs) (b : Bool), a.partition = some b → (annotateArray a).partition = some b) ∧
    (∀ a : ArrayAttrs, a.partition = none → (annotateArray a).partition = some false) := by
  refine ⟨fun a => rfl, rfl, ?_, ?_, ?_, ?_, ?_, ?_, ?_, ?_, ?_, ?_, ?_, ?_⟩ <;>
    first
      | (intro a b h; simp [annotateFor, annotateArray, h])
      | (intro a h; simp [annotateFor, annotateArray, h])

/-- Witness for C10 at concrete attribute bags: a function entering with
`dataflow = true` leaves with `false`; a present loop/wrapper attribute is
preserved and an absent one is defaulted. -/
theorem annotator_attribute_defaults_witness :
    (annotateFunc ⟨some true⟩).dataflow = some false ∧
    (annotateFor ⟨some true, none, none⟩).pipeline = some true ∧
    (annotateFor ⟨none, some true, some true⟩).pipeline = some false ∧
    (annotateFor ⟨none, some true, some true⟩).unroll = some true ∧
    (annotateFor ⟨some true, none, none⟩).unroll = some false ∧
    (annotateFor ⟨none, some true, some true⟩).flatten = some true ∧
    (annotateFor ⟨some true, none, none⟩).flatten = some false ∧
    (annotateArray ⟨some true, none, none⟩).interface = some true ∧
    (annotateArray ⟨none, some true, some true⟩).interface = some false ∧
    (annotateArray ⟨none, some true, some true⟩).storage = some true ∧
    (annotateArray ⟨some true, none, none⟩).storage = some false ∧
    (annotateArray ⟨none, some true, some true⟩).partition = some true ∧
    (annotateArray ⟨some true, none, none⟩).partition = some false :=
  ⟨annotator_attribute_defaults.2.1,
   annotator_attribute_defaults.2.2.1 ⟨some true, none, none⟩ true rfl,
   annotator_attribute_defaults.2.2.2.1 ⟨none, some true, some true⟩ rfl,
   annotator_attribute_defaults.2.2.2.2.1 ⟨none, some true, some true⟩ true rfl,
   annotator_attribute_defaults.2.2.2.2.2.1 ⟨some true, none, none⟩ rfl,
   annotator_attribute_defaults.2.2.2.2.2.2.1 ⟨none, some true, some true⟩ true rfl,
   annotator_attribute_defaults.2.2.2.2.2.2.2.1 ⟨some true, none, none⟩ rfl,
   annotator_attribute_defaults.2.2.2.2.2.2.2.2.1 ⟨some true, none, none⟩ true rfl,
   annotator_attribute_defaults.2.2.2.2.2.2.2.2.2.1 ⟨none, some true, some true⟩ rfl,
   annotator_attribute_defaults.2.2.2.2.2.2.2.2.2.2.1 ⟨none, some true, some true⟩ true rfl,
   annotator_attribute_defaults.2.2.2.2.2.2.2.2.2.2.2.1 ⟨some true, none, none⟩ rfl,
   annotator_attribute_defaults.2.2.2.2.2.2.2.2.2.2.2.2.1 ⟨none, some true, some true⟩ true rfl,
   annotator_attribute_defaults.2.2.2.2.2.2.2.2.2.2.2.2.2 ⟨some true, none, none⟩ rfl⟩

end ScaleHLS
